import Mathlib

/-!
Verification development for the TubeScribe repository: a shallow embedding of
the server-side transcript pipeline (`src/server/routes.ts` and the unnamed
route-file variants) together with theorems about its behaviour.

JavaScript strings are modelled as `String` / `List Char`; JavaScript numbers
are modelled as exact rationals (`ℚ`), with an explicit `JNum` wrapper adding
the `NaN` value where `parseFloat` can produce it.  JavaScript library
primitives used by the source (`String.prototype.trim`, `includes`,
`startsWith`, `split`, `replace`, regular-expression matching) are embedded as
executable Lean functions over `List Char` with the same semantics on the
inputs of interest.
-/

namespace TubeScribe

/-! ## JavaScript string primitives -/

/-- Whitespace as recognised by `String.prototype.trim` and the regex class
`\s` (restricted to the ASCII whitespace characters that occur in this
development). -/
def isJsWs (c : Char) : Bool :=
  c = ' ' || c = '\t' || c = '\n' || c = '\r'

/-- `String.prototype.trim`: drop whitespace from both ends. -/
def jsTrim (cs : List Char) : List Char :=
  ((cs.dropWhile isJsWs).reverse.dropWhile isJsWs).reverse

/-- `String.prototype.trim` on `String`. -/
def jsTrimStr (s : String) : String :=
  (jsTrim s.data).asString

/-- Does `pat` occur as a contiguous substring of `cs`?
(`String.prototype.includes`). -/
def hasInfix (pat : List Char) : List Char → Bool
  | [] => pat.isEmpty
  | c :: cs => pat.isPrefixOf (c :: cs) || hasInfix pat cs

/-- `String.prototype.includes` on `String`s (receiver first). -/
def jsIncludes (hay pat : String) : Bool :=
  hasInfix pat.data hay.data

/-- `String.prototype.startsWith`. -/
def jsStartsWith (cs pat : List Char) : Bool :=
  pat.isPrefixOf cs

/-- Split a character list on newline characters, keeping empty pieces —
`String.prototype.split('\n')`. -/
def splitNl : List Char → List (List Char)
  | [] => [[]]
  | c :: cs =>
    if c = '\n' then [] :: splitNl cs
    else
      match splitNl cs with
      | [] => [[c]]
      | g :: gs => (c :: g) :: gs

/-- Join lines with newline characters (inverse of `splitNl` on
newline-free lines). -/
def joinNl : List (List Char) → List Char
  | [] => []
  | [l] => l
  | l :: ls => l ++ '\n' :: joinNl ls

theorem splitNl_ne_nil (cs : List Char) : splitNl cs ≠ [] := by
  induction cs with
  | nil => simp [splitNl]
  | cons c cs ih =>
    simp only [splitNl]
    split
    · simp
    · cases h : splitNl cs with
      | nil => simp
      | cons g gs => simp

theorem splitNl_no_nl {l : List Char} (h : '\n' ∉ l) : splitNl l = [l] := by
  induction l with
  | nil => simp [splitNl]
  | cons c cs ih =>
    simp only [List.mem_cons, not_or] at h
    have hc : c ≠ '\n' := fun hcc => h.1 hcc.symm
    simp only [splitNl, if_neg (by simpa using hc)]
    rw [ih h.2]

theorem splitNl_append_cons {l : List Char} (rest : List Char) (h : '\n' ∉ l) :
    splitNl (l ++ '\n' :: rest) = l :: splitNl rest := by
  induction l with
  | nil => simp [splitNl]
  | cons c cs ih =>
    simp only [List.mem_cons, not_or] at h
    have hc : c ≠ '\n' := fun hcc => h.1 hcc.symm
    simp only [List.cons_append, splitNl, if_neg (by simpa using hc), List.append_eq]
    rw [ih h.2]

/-- Splitting the newline-joined rendering of a nonempty list of
newline-free lines recovers exactly those lines. -/
theorem splitNl_joinNl {ls : List (List Char)} (hne : ls ≠ [])
    (h : ∀ l ∈ ls, '\n' ∉ l) : splitNl (joinNl ls) = ls := by
  induction ls with
  | nil => exact absurd rfl hne
  | cons l ls ih =>
    cases ls with
    | nil => simpa [joinNl] using splitNl_no_nl (h l (by simp))
    | cons l' ls' =>
      have hl : '\n' ∉ l := h l (by simp)
      simp only [joinNl]
      rw [splitNl_append_cons _ hl, ih (by simp) (fun x hx => h x (by simp [hx]))]

/-! ## chunkText (`src/server/routes.ts` lines 30–57)

```
function chunkText(text: string, maxTokens: number = 12000): string[] {
  const maxChars = maxTokens * 4;
  const chunks: string[] = [];
  if (text.length <= maxChars) { return [text]; }
  const sentences = text.split(/[.!?]+/).filter(s => s.trim().length > 0);
  let currentChunk = "";
  for (const sentence of sentences) {
    const testChunk = currentChunk + sentence + ". ";
    if (testChunk.length > maxChars && currentChunk.length > 0) {
      chunks.push(currentChunk.trim());
      currentChunk = sentence + ". ";
    } else {
      currentChunk = testChunk;
    }
  }
  if (currentChunk.trim().length > 0) { chunks.push(currentChunk.trim()); }
  return chunks;
}
```
-/

/-- The sentence-terminator class `[.!?]` of the chunker's split regex. -/
def isSentencePunct (c : Char) : Bool :=
  c = '.' || c = '!' || c = '?'

/-- `text.split(/[.!?]+/)`: the pieces between maximal runs of
sentence-ending punctuation (empty pieces kept, exactly as the JS regex
split produces them).  `inRun` records whether the previous character was
part of a punctuation run, `acc` holds the current piece reversed. -/
def splitSentencesAux (inRun : Bool) : List Char → List Char → List (List Char)
  | [], acc => [acc.reverse]
  | c :: rest, acc =>
    if isSentencePunct c then
      if inRun then splitSentencesAux true rest acc
      else acc.reverse :: splitSentencesAux true rest []
    else splitSentencesAux false rest (c :: acc)

def splitSentences (cs : List Char) : List (List Char) :=
  splitSentencesAux false cs []

/-- The filtered sentence list of `chunkText`:
`text.split(/[.!?]+/).filter(s => s.trim().length > 0)`. -/
def chunkSentences (cs : List Char) : List (List Char) :=
  (splitSentences cs).filter (fun s => (jsTrim s).length > 0)

/-- One step of the chunker's sentence loop: state is
`(chunks so far, currentChunk)`. -/
def chunkStep (maxChars : Nat) (st : List (List Char) × List Char)
    (sentence : List Char) : List (List Char) × List Char :=
  let testChunk := st.2 ++ sentence ++ ['.', ' ']
  if testChunk.length > maxChars ∧ st.2.length > 0 then
    (st.1 ++ [jsTrim st.2], sentence ++ ['.', ' '])
  else
    (st.1, testChunk)

/-- The trailing flush of the chunk loop: push the trimmed current
buffer when it is nonempty. -/
def chunkFinish (st : List (List Char) × List Char) : List (List Char) :=
  if (jsTrim st.2).length > 0 then st.1 ++ [jsTrim st.2] else st.1

/-- `chunkText` over character lists. -/
def chunkTextChars (cs : List Char) (maxTokens : Nat) : List (List Char) :=
  if cs.length ≤ maxTokens * 4 then [cs]
  else
    chunkFinish ((chunkSentences cs).foldl (chunkStep (maxTokens * 4)) ([], []))

/-- `chunkText(text, maxTokens = 12000)` from `src/server/routes.ts`. -/
def chunkText (text : String) (maxTokens : Nat := 12000) : List String :=
  (chunkTextChars text.data maxTokens).map List.asString

/-- `List.asString` is a left inverse of `String.data`. -/
theorem asString_data (s : String) : s.data.asString = s := rfl

/-! ### Facts about `jsTrim` -/

theorem mem_dropWhile_of_not {p : Char → Bool} {c : Char} :
    ∀ {l : List Char}, c ∈ l → ¬ p c → c ∈ l.dropWhile p := by
  intro l
  induction l with
  | nil => intro h; cases h
  | cons a l ih =>
    intro hmem hc
    by_cases ha : p a
    · rw [List.dropWhile_cons_of_pos ha]
      rcases List.mem_cons.mp hmem with rfl | h
      · exact absurd ha hc
      · exact ih h hc
    · rw [List.dropWhile_cons_of_neg ha]
      exact hmem

theorem jsTrim_ne_nil_of_mem {c : Char} {l : List Char}
    (hmem : c ∈ l) (hc : ¬ isJsWs c) : jsTrim l ≠ [] := by
  intro h
  have h1 : ((l.dropWhile isJsWs).reverse.dropWhile isJsWs) = [] := by
    simpa [jsTrim] using congrArg List.reverse h
  have h2 := List.dropWhile_eq_nil_iff.mp h1
  have h3 : c ∈ (l.dropWhile isJsWs).reverse :=
    List.mem_reverse.mpr (mem_dropWhile_of_not hmem hc)
  exact hc (h2 c h3)

theorem jsTrim_length_le (l : List Char) : (jsTrim l).length ≤ l.length := by
  calc (jsTrim l).length
      = ((l.dropWhile isJsWs).reverse.dropWhile isJsWs).length := by
        simp [jsTrim]
    _ ≤ (l.dropWhile isJsWs).reverse.length :=
        (List.dropWhile_suffix _).length_le
    _ = (l.dropWhile isJsWs).length := by simp
    _ ≤ l.length := (List.dropWhile_suffix _).length_le

/-! ### The chunker's sentence-block structure -/

/-- The `sentence + ". "` re-rendering the chunk loop appends. -/
def renderSentence (s : List Char) : List Char := s ++ ['.', ' ']

/-- The raw buffer contents a consecutive block of sentences produces. -/
def renderBlock (b : List (List Char)) : List Char := (b.map renderSentence).flatten

theorem renderBlock_nil : renderBlock [] = [] := rfl

theorem renderBlock_append_single (b : List (List Char)) (s : List Char) :
    renderBlock (b ++ [s]) = renderBlock b ++ renderSentence s := by
  simp [renderBlock]

theorem renderBlock_ne_nil {b : List (List Char)} (h : b ≠ []) :
    renderBlock b ≠ [] := by
  cases b with
  | nil => exact absurd rfl h
  | cons s b => simp [renderBlock, renderSentence]

theorem dot_mem_renderBlock {b : List (List Char)} (h : b ≠ []) :
    '.' ∈ renderBlock b := by
  cases b with
  | nil => exact absurd rfl h
  | cons s b => simp [renderBlock, renderSentence]

theorem jsTrim_renderBlock_ne_nil {b : List (List Char)} (h : b ≠ []) :
    jsTrim (renderBlock b) ≠ [] :=
  jsTrim_ne_nil_of_mem (dot_mem_renderBlock h) (by simp [isJsWs])

/-- `chunks` is the chunker's sentence-granular decomposition of `sents`:
a partition of the sentence sequence into nonempty consecutive blocks,
each chunk being the trimmed `". "`-rendering of its block.  In
particular every sentence of `sents` appears, in order, in exactly one
chunk. -/
def IsSentenceChunking (chunks sents : List (List Char)) : Prop :=
  ∃ blocks : List (List (List Char)),
    blocks.flatten = sents ∧ (∀ b ∈ blocks, b ≠ []) ∧
    chunks = blocks.map (fun b => jsTrim (renderBlock b))

/-- The chunk loop, started on a nonempty current block, completes a
sequence of nonempty blocks and leaves a nonempty current block, and the
blocks together with the final buffer partition the processed
sentences. -/
theorem foldl_chunkStep_spec (mc : Nat) :
    ∀ (sents : List (List Char)) (done : List (List Char))
      (C : List (List Char)), C ≠ [] →
      ∃ (blocks : List (List (List Char))) (C' : List (List Char)),
        sents.foldl (chunkStep mc) (done, renderBlock C)
          = (done ++ blocks.map (fun b => jsTrim (renderBlock b)),
             renderBlock C') ∧
        (∀ b ∈ blocks, b ≠ []) ∧ C' ≠ [] ∧
        blocks.flatten ++ C' = C ++ sents := by
  intro sents
  induction sents with
  | nil =>
    intro done C hC
    exact ⟨[], C, by simp, by simp, hC, by simp⟩
  | cons s rest ih =>
    intro done C hC
    have hlen : (renderBlock C).length > 0 :=
      List.length_pos.mpr (renderBlock_ne_nil hC)
    by_cases hover : (renderBlock C ++ s ++ ['.', ' ']).length > mc
    · -- flush the current block, restart with `[s]`
      have hstep : chunkStep mc (done, renderBlock C) s
          = (done ++ [jsTrim (renderBlock C)], renderBlock [s]) := by
        simp only [chunkStep, if_pos (And.intro hover hlen)]
        simp [renderBlock, renderSentence]
      obtain ⟨blocks, C', heq, hne, hC', hjoin⟩ :=
        ih (done ++ [jsTrim (renderBlock C)]) [s] (by simp)
      refine ⟨C :: blocks, C', ?_, ?_, hC', ?_⟩
      · simpa [hstep] using heq
      · intro b hb
        rcases List.mem_cons.mp hb with rfl | hb
        · exact hC
        · exact hne b hb
      · rw [List.flatten_cons, List.append_assoc, hjoin]
        simp
    · -- keep accumulating into the current block
      have hstep : chunkStep mc (done, renderBlock C) s
          = (done, renderBlock (C ++ [s])) := by
        simp only [chunkStep]
        rw [if_neg (by intro h; exact hover (by simpa using h.1))]
        simp [renderBlock_append_single, renderSentence]
      obtain ⟨blocks, C', heq, hne, hC', hjoin⟩ :=
        ih done (C ++ [s]) (by simp)
      refine ⟨blocks, C', by simpa [hstep] using heq, hne, hC', ?_⟩
      rw [hjoin]
      simp

/-- Claim C2 (amended), main theorem.  For every input text and every
`maxTokens`: if the text fits the character budget `maxTokens*4` the
result is `[text]` itself (which is nonempty and covers the input
exactly); otherwise the chunks are exactly a blockwise rendering of the
filtered sentence list — every sentence fragment appears, trimmed and in
order, in the concatenation of the chunks.  Nonemptiness holds provided
the text fits the budget or at least one sentence fragment has
non-whitespace content (it fails for longer punctuation-only texts, see
the counterexample). -/
theorem chunkText_never_empty_and_covers (text : String) (maxTokens : Nat) :
    ((text.length ≤ maxTokens * 4 ∨ chunkSentences text.data ≠ []) →
       chunkText text maxTokens ≠ []) ∧
    (text.length ≤ maxTokens * 4 ∧ chunkText text maxTokens = [text] ∨
       maxTokens * 4 < text.length ∧
         IsSentenceChunking (chunkTextChars text.data maxTokens)
           (chunkSentences text.data)) := by
  by_cases hle : text.length ≤ maxTokens * 4
  · have hshort : chunkText text maxTokens = [text] := by
      have : chunkTextChars text.data maxTokens = [text.data] := by
        unfold chunkTextChars
        have hle2 : text.data.length ≤ maxTokens * 4 := hle
        rw [if_pos hle2]
      show (chunkTextChars text.data maxTokens).map List.asString = [text]
      rw [this, List.map_cons, List.map_nil, asString_data]
    exact ⟨fun _ => by simp [hshort], Or.inl ⟨hle, hshort⟩⟩
  · have hlong : maxTokens * 4 < text.length := Nat.lt_of_not_le hle
    have hlendata : ¬ text.data.length ≤ maxTokens * 4 := hle
    cases hsents : chunkSentences text.data with
    | nil =>
      have hchars : chunkTextChars text.data maxTokens = [] := by
        unfold chunkTextChars
        rw [if_neg hlendata, hsents]
        simp [chunkFinish, jsTrim]
      constructor
      · intro h
        rcases h with h | h
        · exact absurd h hle
        · exact absurd rfl h
      · exact Or.inr ⟨hlong, ⟨[], by simp, by simp, by simp [hchars]⟩⟩
    | cons s rest =>
      have hfirst : chunkStep (maxTokens * 4) ([], []) s
          = ([], renderBlock [s]) := by
        simp [chunkStep, renderBlock, renderSentence]
      obtain ⟨blocks, C', heq, hne, hC', hjoin⟩ :=
        foldl_chunkStep_spec (maxTokens * 4) rest [] [s] (by simp)
      have hfold : (chunkSentences text.data).foldl
          (chunkStep (maxTokens * 4)) ([], [])
          = (blocks.map (fun b => jsTrim (renderBlock b)), renderBlock C') := by
        rw [hsents, List.foldl_cons, hfirst]
        simpa using heq
      have hpush : (jsTrim (renderBlock C')).length > 0 :=
        List.length_pos.mpr (jsTrim_renderBlock_ne_nil hC')
      have hchars : chunkTextChars text.data maxTokens
          = (blocks ++ [C']).map (fun b => jsTrim (renderBlock b)) := by
        unfold chunkTextChars
        rw [if_neg hlendata, hfold]
        simp [chunkFinish, hpush]
      constructor
      · intro _
        simp [chunkText, hchars]
      · refine Or.inr ⟨hlong, ⟨blocks ++ [C'], ?_, ?_, hchars⟩⟩
        · simpa using hjoin
        · intro b hb
          rcases List.mem_append.mp hb with hb | hb
          · exact hne b hb
          · simp only [List.mem_singleton] at hb
            exact hb ▸ hC'

/-- Witness for C2: a concrete instantiation of the amended theorem. -/
theorem chunkText_never_empty_witness : chunkText "a" 1 ≠ [] :=
  (chunkText_never_empty_and_covers "a" 1).1 (Or.inl (by decide))

/-- Counterexample to C2 as stated: a text longer than `maxTokens*4`
consisting only of sentence punctuation yields the empty chunk list, so
`chunkText` is not always non-empty. -/
theorem chunkText_empty_counterexample : chunkText "....." 1 = [] := by rfl

/-- Invariant for the chunk-size bound: every completed chunk is either
within the `maxChars` budget or the trimmed rendering of one single
(oversized) sentence. -/
theorem foldl_chunkStep_size (mc : Nat) (S : List (List Char)) :
    ∀ (sents : List (List Char)) (done : List (List Char)) (cur : List Char),
      (∀ x ∈ sents, x ∈ S) →
      (∀ ch ∈ done, ch.length ≤ mc ∨
        ∃ s ∈ S, ch = jsTrim (renderSentence s)) →
      (cur = [] ∨ (∃ s ∈ S, cur = renderSentence s) ∨ cur.length ≤ mc) →
      (∀ ch ∈ (sents.foldl (chunkStep mc) (done, cur)).1,
        ch.length ≤ mc ∨ ∃ s ∈ S, ch = jsTrim (renderSentence s)) ∧
      ((sents.foldl (chunkStep mc) (done, cur)).2 = [] ∨
        (∃ s ∈ S, (sents.foldl (chunkStep mc) (done, cur)).2
          = renderSentence s) ∨
        (sents.foldl (chunkStep mc) (done, cur)).2.length ≤ mc) := by
  intro sents
  induction sents with
  | nil => intro done cur _ hdone hcur; exact ⟨hdone, hcur⟩
  | cons s rest ih =>
    intro done cur hmem hdone hcur
    have hs : s ∈ S := hmem s (by simp)
    have hrest : ∀ x ∈ rest, x ∈ S := fun x hx => hmem x (by simp [hx])
    simp only [List.foldl_cons]
    by_cases hcond : (cur ++ s ++ ['.', ' ']).length > mc ∧ cur.length > 0
    · have hstep : chunkStep mc (done, cur) s
          = (done ++ [jsTrim cur], renderSentence s) := by
        simp only [chunkStep, if_pos hcond]
        simp [renderSentence]
      rw [hstep]
      refine ih _ _ hrest ?_ (Or.inr (Or.inl ⟨s, hs, rfl⟩))
      intro ch hch
      rcases List.mem_append.mp hch with hch | hch
      · exact hdone ch hch
      · simp only [List.mem_singleton] at hch
        subst hch
        rcases hcur with rfl | ⟨s', hs', rfl⟩ | hlen
        · simp at hcond
        · exact Or.inr ⟨s', hs', rfl⟩
        · exact Or.inl ((jsTrim_length_le cur).trans hlen)
    · have hstep : chunkStep mc (done, cur) s
          = (done, cur ++ s ++ ['.', ' ']) := by
        simp only [chunkStep, if_neg hcond]
      rw [hstep]
      refine ih _ _ hrest hdone ?_
      by_cases hover : (cur ++ s ++ ['.', ' ']).length > mc
      · have hcurnil : cur = [] := by
          by_contra hne
          exact hcond ⟨hover, List.length_pos.mpr hne⟩
        subst hcurnil
        exact Or.inr (Or.inl ⟨s, hs, by simp [renderSentence]⟩)
      · exact Or.inr (Or.inr (Nat.le_of_not_lt hover))

/-- Claim C3 (amended), main theorem.  A text within the character
budget yields exactly `[text]`; for a longer text every chunk is either
within the `maxChars = maxTokens*4` budget or the trimmed rendering of a
single (oversized) sentence fragment — but nothing forces at least two
chunks, nor at most one oversized chunk. -/
theorem chunkText_single_or_bounded (text : String) (maxTokens : Nat) :
    (text.length ≤ maxTokens * 4 → chunkText text maxTokens = [text]) ∧
    (∀ chunk ∈ chunkTextChars text.data maxTokens,
      chunk.length ≤ maxTokens * 4 ∨
        ∃ s ∈ chunkSentences text.data, chunk = jsTrim (renderSentence s)) := by
  constructor
  · intro hle
    have h1 : chunkTextChars text.data maxTokens = [text.data] := by
      unfold chunkTextChars
      have hle2 : text.data.length ≤ maxTokens * 4 := hle
      rw [if_pos hle2]
    show (chunkTextChars text.data maxTokens).map List.asString = [text]
    rw [h1, List.map_cons, List.map_nil, asString_data]
  · intro chunk hchunk
    by_cases hle : text.data.length ≤ maxTokens * 4
    · have : chunkTextChars text.data maxTokens = [text.data] := by
        unfold chunkTextChars
        rw [if_pos hle]
      rw [this] at hchunk
      simp only [List.mem_singleton] at hchunk
      exact Or.inl (hchunk ▸ hle)
    · obtain ⟨hdone, hcur⟩ :=
        foldl_chunkStep_size (maxTokens * 4) (chunkSentences text.data)
          (chunkSentences text.data) [] [] (fun x hx => hx)
          (by intro ch hch; cases hch) (Or.inl rfl)
      have hchars : chunkTextChars text.data maxTokens
          = chunkFinish ((chunkSentences text.data).foldl
              (chunkStep (maxTokens * 4)) ([], [])) := by
        unfold chunkTextChars
        rw [if_neg hle]
      rw [hchars] at hchunk
      unfold chunkFinish at hchunk
      by_cases hpush : (jsTrim ((chunkSentences text.data).foldl
          (chunkStep (maxTokens * 4)) ([], [])).2).length > 0
      · rw [if_pos hpush] at hchunk
        rcases List.mem_append.mp hchunk with hch | hch
        · exact hdone chunk hch
        · simp only [List.mem_singleton] at hch
          subst hch
          rcases hcur with hnil | ⟨s, hs, hrs⟩ | hlen
          · rw [hnil] at hpush
            simp [jsTrim] at hpush
          · exact Or.inr ⟨s, hs, by rw [hrs]⟩
          · exact Or.inl ((jsTrim_length_le _).trans hlen)
      · rw [if_neg hpush] at hchunk
        exact hdone chunk hchunk

/-- Witness for C3: concrete instantiation of both parts of the amended
theorem. -/
theorem chunkText_single_or_bounded_witness :
    chunkText "ab" 1 = ["ab"] ∧
      ("ab".data.length ≤ 1 * 4 ∨
        ∃ s ∈ chunkSentences "ab".data, "ab".data = jsTrim (renderSentence s)) :=
  ⟨(chunkText_single_or_bounded "ab" 1).1 (by decide),
   (chunkText_single_or_bounded "ab" 1).2 "ab".data (by
     have : chunkTextChars "ab".data 1 = ["ab".data] := by rfl
     simp [this])⟩

/-- Counterexample to C3 as stated: a 7-character text with
`maxTokens = 1` (budget 4) is longer than the budget yet yields a single
chunk, not at least two. -/
theorem chunkText_single_long_counterexample :
    chunkText "aaaaaa." 1 = ["aaaaaa."] := by rfl

/-! ## JavaScript numbers

The numbers flowing through this code are exact decimals (millisecond
offsets, second values); they are modelled as rationals.  `parseFloat`
can additionally produce `NaN`, modelled by the `JNum` wrapper. -/

/-- A JavaScript number: either `NaN` or a (rational) value. -/
inductive JNum where
  | nan : JNum
  | val : ℚ → JNum
deriving DecidableEq, Repr

instance (n : Nat) : OfNat JNum n := ⟨.val n⟩

/-- NaN-propagating division. -/
def JNum.div : JNum → JNum → JNum
  | .val a, .val b => .val (a / b)
  | _, _ => .nan

/-- NaN-propagating multiplication. -/
def JNum.mul : JNum → JNum → JNum
  | .val a, .val b => .val (a * b)
  | _, _ => .nan

/-- NaN-propagating subtraction. -/
def JNum.sub : JNum → JNum → JNum
  | .val a, .val b => .val (a - b)
  | _, _ => .nan

instance : Div JNum := ⟨JNum.div⟩
instance : Mul JNum := ⟨JNum.mul⟩
instance : Sub JNum := ⟨JNum.sub⟩

/-! ## formatTimestamp (`src/server/routes.ts` lines 18–22)

```
function formatTimestamp(seconds: number): string {
  const minutes = Math.floor(seconds / 60);
  const remainingSeconds = Math.floor(seconds % 60);
  return `${minutes.toString().padStart(2, '0')}:${remainingSeconds.toString().padStart(2, '0')}`;
}
```
-/

/-- Truncation toward zero, as JavaScript's `%` uses for its implied
quotient. -/
def jsTrunc (q : ℚ) : ℤ := if 0 ≤ q then ⌊q⌋ else ⌈q⌉

/-- The JavaScript remainder operator `a % b` (truncated division
remainder) on non-`NaN` values. -/
def jsMod (a b : ℚ) : ℚ := a - b * jsTrunc (a / b)

/-- `Number.prototype.toString` restricted to integer values. -/
def intToString (n : ℤ) : String :=
  if n < 0 then "-" ++ Nat.repr n.natAbs else Nat.repr n.natAbs

/-- `String.prototype.padStart(2, '0')`. -/
def padStart2 (s : String) : String :=
  if s.length ≥ 2 then s else if s.length = 1 then "0" ++ s else "00" ++ s

/-- `formatTimestamp` from `src/server/routes.ts`. -/
def formatTimestamp (seconds : ℚ) : String :=
  padStart2 (intToString ⌊seconds / 60⌋) ++ ":"
    ++ padStart2 (intToString ⌊jsMod seconds 60⌋)

/-- `formatTimestamp` applied to a `JNum` (on `NaN`, the JavaScript
original computes `Math.floor(NaN/60) = NaN` and renders `"NaN:NaN"`). -/
def formatTimestampJNum : JNum → String
  | .val q => formatTimestamp q
  | .nan => "NaN:NaN"

/-- Claim C9, main theorem.  For every non-negative `seconds`,
`formatTimestamp` renders `floor(seconds/60)` and
`floor(seconds) mod 60` zero-padded to width two and joined by a colon
(no rounding beyond flooring, no hour component), and the three
spec examples evaluate as stated — in particular
`formatTimestamp 3600 = "60:00"` shows minutes are not wrapped at 60. -/
theorem formatTimestamp_floor_mmss :
    (∀ s : ℚ, 0 ≤ s →
      formatTimestamp s
        = padStart2 (intToString ⌊s / 60⌋) ++ ":"
            ++ padStart2 (intToString (⌊s⌋ % 60))) ∧
    formatTimestamp (125.7 : ℚ) = "02:05" ∧
    formatTimestamp (59.999 : ℚ) = "00:59" ∧
    formatTimestamp (3600 : ℚ) = "60:00" := by
  refine ⟨?_, ?_, ?_, ?_⟩
  case refine_2 =>
    have h1 : ⌊(125.7 : ℚ) / 60⌋ = 2 := by norm_num
    have h2 : ⌊jsMod (125.7 : ℚ) 60⌋ = 5 := by
      rw [jsMod, jsTrunc, if_pos (by norm_num : (0:ℚ) ≤ 125.7 / 60), h1]
      norm_num
    rw [formatTimestamp, h1, h2]
    decide
  case refine_3 =>
    have h1 : ⌊(59.999 : ℚ) / 60⌋ = 0 := by norm_num
    have h2 : ⌊jsMod (59.999 : ℚ) 60⌋ = 59 := by
      rw [jsMod, jsTrunc, if_pos (by norm_num : (0:ℚ) ≤ 59.999 / 60), h1]
      norm_num
    rw [formatTimestamp, h1, h2]
    decide
  case refine_4 =>
    have h1 : ⌊(3600 : ℚ) / 60⌋ = 60 := by norm_num
    have h2 : ⌊jsMod (3600 : ℚ) 60⌋ = 0 := by
      rw [jsMod, jsTrunc, if_pos (by norm_num : (0:ℚ) ≤ 3600 / 60), h1]
      norm_num
    rw [formatTimestamp, h1, h2]
    decide
  intro s hs
  have hq : (0 : ℚ) ≤ s / 60 := by positivity
  have htr : jsTrunc (s / 60) = ⌊s / 60⌋ := if_pos hq
  have hcast : (60 : ℚ) * (⌊s / 60⌋ : ℚ) = ((60 * ⌊s / 60⌋ : ℤ) : ℚ) := by
    push_cast
    ring
  have hfloor : ⌊jsMod s 60⌋ = ⌊s⌋ - 60 * ⌊s / 60⌋ := by
    rw [jsMod, htr, hcast, Int.floor_sub_int]
  have hlow : 60 * ⌊s / 60⌋ ≤ ⌊s⌋ := by
    refine Int.le_floor.mpr ?_
    rw [← hcast]
    have h1 : (⌊s / 60⌋ : ℚ) ≤ s / 60 := Int.floor_le _
    linarith
  have hhigh : ⌊s⌋ < 60 * ⌊s / 60⌋ + 60 := by
    have h1 : s / 60 < ⌊s / 60⌋ + 1 := Int.lt_floor_add_one _
    have h2 : s < 60 * (⌊s / 60⌋ : ℚ) + 60 := by linarith
    have h3 : s < ((60 * ⌊s / 60⌋ + 60 : ℤ) : ℚ) := by
      push_cast
      linarith
    exact Int.floor_lt.mpr h3
  have hmod : ⌊s⌋ - 60 * ⌊s / 60⌋ = ⌊s⌋ % 60 := by omega
  rw [formatTimestamp, hfloor, hmod]

/-- Witness for C9: the general clause applied at the concrete input
`130` (a value not among the spec's examples). -/
theorem formatTimestamp_floor_mmss_witness :
    formatTimestamp (130 : ℚ)
      = padStart2 (intToString ⌊(130 : ℚ) / 60⌋) ++ ":"
          ++ padStart2 (intToString (⌊(130 : ℚ)⌋ % 60)) :=
  formatTimestamp_floor_mmss.1 130 (by norm_num)

/-! ## estimateTokenCount and the transcript / summary assemblies

`src/server/routes.ts` lines 24–27 and 162–187, lines 297–304.
-/

/-- `estimateTokenCount`: `Math.ceil(text.length / 4)`. -/
def estimateTokenCount (text : String) : ℤ :=
  ⌈(text.length : ℚ) / 4⌉

/-- A raw caption segment as produced by an acquisition strategy:
`{text, offset, duration}` with times in milliseconds. -/
structure RawSeg where
  text : String
  offset : JNum
  duration : JNum
deriving DecidableEq, Repr

/-- The canonical transcript item (`TranscriptItem` of `@shared/schema`,
`src/unnamed/part_006`). -/
structure TranscriptItem where
  text : String
  start : JNum
  duration : JNum
  timestamp : String
deriving DecidableEq, Repr

/-- `TranscriptResponse` of `@shared/schema`. -/
structure TranscriptResponse where
  items : List TranscriptItem
  transcript : String
  characterCount : Nat
  tokenCount : ℤ
deriving DecidableEq, Repr

/-- The per-item mapping of the `/api/transcript` handler:
trim the text, convert milliseconds to seconds, format the timestamp. -/
def toTranscriptItem (item : RawSeg) : TranscriptItem :=
  { text := jsTrimStr item.text
    start := item.offset / 1000
    duration := item.duration / 1000
    timestamp := formatTimestampJNum (item.offset / 1000) }

/-- The transcript-assembly tail of the `/api/transcript` handler
(`src/server/routes.ts` lines 162–187): map the segments, join the item
texts with single spaces, compute the metrics. -/
def processItems (segs : List RawSeg) : TranscriptResponse :=
  let items := segs.map toTranscriptItem
  let fullTranscript := String.intercalate " " (items.map TranscriptItem.text)
  { items := items
    transcript := fullTranscript
    characterCount := fullTranscript.length
    tokenCount := estimateTokenCount fullTranscript }

/-- A parsed partial summary `{tldr, bulletPoints}`. -/
structure PSummary where
  tldr : String
  bulletPoints : List String
deriving DecidableEq, Repr

/-- `SummaryResponse` of `@shared/schema`. -/
structure SummaryResponse where
  summary : String
  tldr : String
  bulletPoints : List String
  tokenCount : ℤ
deriving DecidableEq, Repr

/-- `finalSummary.bulletPoints.map((point, i) => `• ${point}`).join('\n')`. -/
def renderBullets (points : List String) : String :=
  String.intercalate "\n" (points.map (fun point => "• " ++ point))

/-- The fixed rendering of the summary string
(`src/server/routes.ts` line 297). -/
def summaryText (fs : PSummary) : String :=
  "TL;DR: " ++ fs.tldr ++ "\n\nKey Points:\n" ++ renderBullets fs.bulletPoints

/-- The `SummaryResponse` construction of the `/api/summarize` handler
(`src/server/routes.ts` lines 299–304). -/
def mkSummaryResponse (fs : PSummary) : SummaryResponse :=
  { summary := summaryText fs
    tldr := fs.tldr
    bulletPoints := fs.bulletPoints
    tokenCount := estimateTokenCount (summaryText fs) }

/-- `ceil(n/4)` over the rationals agrees with the rounded-up natural
division `(n+3)/4`. -/
theorem ceil_div_four (n : Nat) : ⌈(n : ℚ) / 4⌉ = (((n + 3) / 4 : ℕ) : ℤ) := by
  have h1 : 4 * ((n + 3) / 4) ≤ n + 3 := by omega
  have h2 : n + 3 < 4 * ((n + 3) / 4) + 4 := by omega
  have hc1 : (4 : ℚ) * (((n + 3) / 4 : ℕ) : ℚ) ≤ (n : ℚ) + 3 := by
    exact_mod_cast h1
  have h3 : n ≤ 4 * ((n + 3) / 4) := by omega
  have hc3 : (n : ℚ) ≤ 4 * (((n + 3) / 4 : ℕ) : ℚ) := by
    exact_mod_cast h3
  rw [Int.ceil_eq_iff]
  constructor
  · simp only [Int.cast_natCast]
    linarith
  · simp only [Int.cast_natCast]
    linarith

/-- Claim C6, main theorem.  For every assembled transcript the reported
`tokenCount` is `ceil(characterCount/4)` where `characterCount` is the
length of the item texts joined by single spaces, and for every rendered
summary the reported `tokenCount` is `ceil` of the rendered summary
string's length over 4. -/
theorem tokenCount_is_ceil_quarter :
    (∀ segs : List RawSeg,
      (processItems segs).transcript
          = String.intercalate " "
              (((processItems segs).items).map TranscriptItem.text) ∧
      (processItems segs).characterCount
          = (processItems segs).transcript.length ∧
      (processItems segs).tokenCount
          = ⌈(((processItems segs).characterCount : ℚ)) / 4⌉ ∧
      (processItems segs).tokenCount
          = ((((processItems segs).characterCount + 3) / 4 : ℕ) : ℤ)) ∧
    (∀ fs : PSummary,
      (mkSummaryResponse fs).tokenCount
          = ⌈(((mkSummaryResponse fs).summary.length : ℚ)) / 4⌉ ∧
      (mkSummaryResponse fs).tokenCount
          = ((((mkSummaryResponse fs).summary.length + 3) / 4 : ℕ) : ℤ)) := by
  constructor
  · intro segs
    refine ⟨rfl, rfl, rfl, ?_⟩
    exact ceil_div_four _
  · intro fs
    exact ⟨rfl, ceil_div_four _⟩

/-! ## The WebVTT parser (`src/unnamed/part_001` lines 28–85; the
identical `parseVTTFromContent`/`parseTimestamp` are at
`src/server/routes.ts` lines 351–412)

```
function parseVTTContent(vttContent: string): any[] {
  const lines = vttContent.split('\n');
  const segments: any[] = []; let currentSegment: any = null;
  for (let i = 0; i < lines.length; i++) {
    const line = lines[i].trim();
    if (!line || line.startsWith('WEBVTT') || line.startsWith('NOTE')) continue;
    const timeMatch = line.match(/^(\d{2}:\d{2}:\d{2}\.\d{3})\s+-->\s+(\d{2}:\d{2}:\d{2}\.\d{3})/);
    if (timeMatch) {
      if (currentSegment && currentSegment.text) segments.push(currentSegment);
      const startTime = parseTimestamp(timeMatch[1]);
      const endTime = parseTimestamp(timeMatch[2]);
      currentSegment = { text: '', offset: startTime * 1000,
                         duration: (endTime - startTime) * 1000 };
    } else if (currentSegment && line && !line.includes('-->')) {
      const cleanText = line.replace(/<[^>]*>/g, '').replace(/&amp;/g, '&')
        .replace(/&lt;/g, '<').replace(/&gt;/g, '>');
      if (cleanText.trim()) {
        currentSegment.text += (currentSegment.text ? ' ' : '') + cleanText.trim();
      }
    }
  }
  if (currentSegment && currentSegment.text) segments.push(currentSegment);
  return segments;
}
```
-/

/-- Tag stripping `replace(/<[^>]*>/g, '')` as a left-to-right scan.
The state holds the characters consumed since an unmatched `<`
(in reverse), restored verbatim if no closing `>` ever arrives —
exactly the regex behaviour, which leaves an unterminated `<...`
untouched. -/
def stripTagsGo : Option (List Char) → List Char → List Char
  | none, [] => []
  | some buf, [] => buf.reverse
  | none, c :: rest =>
    if c = '<' then stripTagsGo (some [c]) rest else c :: stripTagsGo none rest
  | some buf, c :: rest =>
    if c = '>' then stripTagsGo none rest else stripTagsGo (some (c :: buf)) rest

/-- `line.replace(/<[^>]*>/g, '')`. -/
def stripTags (cs : List Char) : List Char := stripTagsGo none cs

/-- Global string replacement, fuel-indexed so that it is structurally
recursive (the wrapper passes `fuel = cs.length`, which every branch
respects since each step consumes at least one character). -/
def replaceAllF (p : Char) (ps rep : List Char) : Nat → List Char → List Char
  | _, [] => []
  | 0, cs => cs
  | fuel + 1, c :: cs =>
    if (p :: ps).isPrefixOf (c :: cs) then
      rep ++ replaceAllF p ps rep fuel (cs.drop ps.length)
    else c :: replaceAllF p ps rep fuel cs

/-- `String.prototype.replace(/pat/g, rep)` for a literal nonempty
pattern `p :: ps`: replace all non-overlapping occurrences, scanning
left to right. -/
def replaceAll (p : Char) (ps rep cs : List Char) : List Char :=
  replaceAllF p ps rep cs.length cs

/-- The tag-stripping and three-entity cleanup applied to each caption
text line (applied in source order: tags, then `&amp;`, `&lt;`,
`&gt;`). -/
def cleanVTTText (cs : List Char) : List Char :=
  replaceAll '&' "gt;".data ">".data
    (replaceAll '&' "lt;".data "<".data
      (replaceAll '&' "amp;".data "&".data (stripTags cs)))

/-- The structured form of a matched `HH:MM:SS.mmm` capture. -/
structure VTime where
  hh : Nat
  mm : Nat
  ss : Nat
  ms : Nat
deriving DecidableEq, Repr

/-- `parseTimestamp` (`src/unnamed/part_001` lines 77–85) applied to a
matched capture: `parseInt` of the hour and minute fields,
`parseFloat` of the `SS.mmm` field, combined into seconds. -/
def parseTimestamp (t : VTime) : ℚ :=
  t.hh * 3600 + t.mm * 60 + (t.ss + (t.ms : ℚ) / 1000)

/-- Numeric value of a digit character. -/
def digitVal (c : Char) : Nat := c.toNat - 48

/-- `\d{2}`: exactly two digits. -/
def parse2 : List Char → Option (Nat × List Char)
  | c₁ :: c₂ :: rest =>
    if c₁.isDigit ∧ c₂.isDigit then
      some (10 * digitVal c₁ + digitVal c₂, rest)
    else none
  | _ => none

/-- `\d{3}`: exactly three digits. -/
def parse3 : List Char → Option (Nat × List Char)
  | c₁ :: c₂ :: c₃ :: rest =>
    if c₁.isDigit ∧ c₂.isDigit ∧ c₃.isDigit then
      some (100 * digitVal c₁ + 10 * digitVal c₂ + digitVal c₃, rest)
    else none
  | _ => none

/-- Consume one expected literal character. -/
def expectChar (c : Char) : List Char → Option (List Char)
  | x :: rest => if x = c then some rest else none
  | [] => none

/-- `\d{2}:\d{2}:\d{2}\.\d{3}` as a prefix match. -/
def parseVTimePrefix (cs : List Char) : Option (VTime × List Char) := do
  let (hh, r1) ← parse2 cs
  let r2 ← expectChar ':' r1
  let (mm, r3) ← parse2 r2
  let r4 ← expectChar ':' r3
  let (ss, r5) ← parse2 r4
  let r6 ← expectChar '.' r5
  let (ms, r7) ← parse3 r6
  some (⟨hh, mm, ss, ms⟩, r7)

/-- `\s+`: one or more whitespace characters. -/
def skipWs1 : List Char → Option (List Char)
  | c :: rest => if isJsWs c then some (rest.dropWhile isJsWs) else none
  | [] => none

/-- The anchored timestamp-line regex
`^(\d{2}:\d{2}:\d{2}\.\d{3})\s+-->\s+(\d{2}:\d{2}:\d{2}\.\d{3})`
(trailing content after the second timestamp is permitted, exactly as
in the source, which does not anchor the end). -/
def matchVTTTimestamps (cs : List Char) : Option (VTime × VTime) := do
  let (t1, r1) ← parseVTimePrefix cs
  let r2 ← skipWs1 r1
  let r3 ← expectChar '-' r2
  let r4 ← expectChar '-' r3
  let r5 ← expectChar '>' r4
  let r6 ← skipWs1 r5
  let (t2, _) ← parseVTimePrefix r6
  some (t1, t2)

/-- The caption-text append of the VTT parser:
strip tags, decode the three entities, trim; append with a single-space
separator when the accumulated text is nonempty; leave the text
unchanged when the cleaned line trims to nothing. -/
def vttAppendText (t : String) (line : List Char) : String :=
  let cleanText := cleanVTTText line
  if jsTrim cleanText ≠ [] then
    t ++ (if t ≠ "" then " " else "") ++ (jsTrim cleanText).asString
  else t

/-- Push the in-progress segment if it has accumulated text — the
guard `if (currentSegment && currentSegment.text)` used both at a new
timestamp line and at end of input. -/
def vttFlush (st : Option RawSeg × List RawSeg) : List RawSeg :=
  match st.1 with
  | some c => if c.text ≠ "" then st.2 ++ [c] else st.2
  | none => st.2

/-- One iteration of the WebVTT parser's line loop. -/
def vttStep (st : Option RawSeg × List RawSeg) (rawLine : List Char) :
    Option RawSeg × List RawSeg :=
  let line := jsTrim rawLine
  if line.isEmpty || jsStartsWith line "WEBVTT".data
      || jsStartsWith line "NOTE".data then st
  else
    match matchVTTTimestamps line with
    | some (t1, t2) =>
      (some { text := ""
              offset := .val (parseTimestamp t1 * 1000)
              duration := .val ((parseTimestamp t2 - parseTimestamp t1) * 1000) },
       vttFlush st)
    | none =>
      match st.1 with
      | some c =>
        if hasInfix "-->".data line = false then
          (some { c with text := vttAppendText c.text line }, st.2)
        else st
      | none => st

/-- The WebVTT parser on an already-split line list. -/
def parseVTTLines (lines : List (List Char)) : List RawSeg :=
  vttFlush (lines.foldl vttStep (none, []))

/-- `parseVTTContent` from `src/unnamed/part_001` lines 28–75. -/
def parseVTTContent (vttContent : String) : List RawSeg :=
  parseVTTLines (splitNl vttContent.data)

/-! ### Structured cue documents (the spec's view of a WebVTT file) -/

/-- Zero-padded two/three-digit rendering of a `HH:MM:SS.mmm` time. -/
def renderVTime (t : VTime) : List Char :=
  [Nat.digitChar (t.hh / 10), Nat.digitChar (t.hh % 10), ':',
   Nat.digitChar (t.mm / 10), Nat.digitChar (t.mm % 10), ':',
   Nat.digitChar (t.ss / 10), Nat.digitChar (t.ss % 10), '.',
   Nat.digitChar (t.ms / 100), Nat.digitChar (t.ms / 10 % 10),
   Nat.digitChar (t.ms % 10)]

/-- A rendered cue timestamp line `HH:MM:SS.mmm --> HH:MM:SS.mmm`. -/
def renderTimestampLine (t1 t2 : VTime) : List Char :=
  renderVTime t1 ++ ' ' :: '-' :: '-' :: '>' :: ' ' :: renderVTime t2

/-- A structured WebVTT cue: start/end times and raw caption text
lines. -/
structure SpecCue where
  startT : VTime
  endT : VTime
  textLines : List (List Char)

/-- Field bounds under which the zero-padded rendering is faithful. -/
def VTime.wf (t : VTime) : Prop :=
  t.hh < 100 ∧ t.mm < 100 ∧ t.ss < 100 ∧ t.ms < 1000

/-- A caption text line that the parser treats as plain cue text: free
of newlines, not itself an arrow/timestamp line, and not mistakable for
a `WEBVTT`/`NOTE` header. -/
def cueLineOk (l : List Char) : Prop :=
  '\n' ∉ l ∧ hasInfix "-->".data (jsTrim l) = false ∧
    jsStartsWith (jsTrim l) "WEBVTT".data = false ∧
    jsStartsWith (jsTrim l) "NOTE".data = false

/-- Wellformedness of a structured cue. -/
def SpecCue.wf (c : SpecCue) : Prop :=
  c.startT.wf ∧ c.endT.wf ∧ ∀ l ∈ c.textLines, cueLineOk l

instance (t : VTime) : Decidable t.wf := by
  unfold VTime.wf
  infer_instance

instance (l : List Char) : Decidable (cueLineOk l) := by
  unfold cueLineOk
  infer_instance

instance (c : SpecCue) : Decidable c.wf := by
  unfold SpecCue.wf
  infer_instance

/-- The rendered lines of one cue: timestamp line, text lines, blank
separator. -/
def renderCueLines (c : SpecCue) : List (List Char) :=
  renderTimestampLine c.startT c.endT :: c.textLines ++ [[]]

/-- A rendered WebVTT document: header line followed by the cues. -/
def renderVTTDoc (cues : List SpecCue) : String :=
  (joinNl ("WEBVTT".data :: (cues.map renderCueLines).flatten)).asString

/-- The text a cue accumulates: each line trimmed, tag-stripped,
entity-decoded, trimmed again and joined by single spaces. -/
def specCueText (c : SpecCue) : String :=
  c.textLines.foldl (fun t l => vttAppendText t (jsTrim l)) ""

/-- The segment the spec expects for one cue: none when no text was
accumulated, otherwise the accumulated text with
`offsetMillis = start·1000` and `durationMillis = (end − start)·1000`. -/
def specCueSegment (c : SpecCue) : Option RawSeg :=
  if specCueText c = "" then none
  else some { text := specCueText c
              offset := .val (parseTimestamp c.startT * 1000)
              duration := .val ((parseTimestamp c.endT - parseTimestamp c.startT)
                * 1000) }

/-! ### Digit-character facts -/

theorem digitChar_isDigit {k : Nat} (h : k < 10) :
    (Nat.digitChar k).isDigit = true := by
  interval_cases k <;> decide

theorem digitVal_digitChar {k : Nat} (h : k < 10) :
    digitVal (Nat.digitChar k) = k := by
  interval_cases k <;> decide

theorem digitChar_facts {k : Nat} (h : k < 10) :
    isJsWs (Nat.digitChar k) = false ∧ Nat.digitChar k ≠ '\n' ∧
      Nat.digitChar k ≠ 'W' ∧ Nat.digitChar k ≠ 'N' := by
  interval_cases k <;> exact ⟨rfl, by decide, by decide, by decide⟩

/-! ### The timestamp matcher on rendered lines -/

theorem parse2_render {n : Nat} (h : n < 100) (rest : List Char) :
    parse2 (Nat.digitChar (n / 10) :: Nat.digitChar (n % 10) :: rest)
      = some (n, rest) := by
  have h1 : n / 10 < 10 := by omega
  have h2 : n % 10 < 10 := by omega
  have hv : 10 * (n / 10) + n % 10 = n := by omega
  simp [parse2, digitChar_isDigit h1, digitChar_isDigit h2,
    digitVal_digitChar h1, digitVal_digitChar h2, hv]

theorem parse3_render {n : Nat} (h : n < 1000) (rest : List Char) :
    parse3 (Nat.digitChar (n / 100) :: Nat.digitChar (n / 10 % 10)
        :: Nat.digitChar (n % 10) :: rest)
      = some (n, rest) := by
  have h1 : n / 100 < 10 := by omega
  have h2 : n / 10 % 10 < 10 := by omega
  have h3 : n % 10 < 10 := by omega
  have hv : 100 * (n / 100) + 10 * (n / 10 % 10) + n % 10 = n := by omega
  simp [parse3, digitChar_isDigit h1, digitChar_isDigit h2, digitChar_isDigit h3,
    digitVal_digitChar h1, digitVal_digitChar h2, digitVal_digitChar h3, hv]

theorem parseVTimePrefix_render {t : VTime} (h : t.wf) (rest : List Char) :
    parseVTimePrefix (renderVTime t ++ rest) = some (t, rest) := by
  obtain ⟨h1, h2, h3, h4⟩ := h
  simp only [renderVTime, List.cons_append, List.nil_append]
  simp [parseVTimePrefix, parse2_render h1, parse2_render h2, parse2_render h3,
    parse3_render h4, expectChar]

theorem parseVTimePrefix_render_nil {t : VTime} (h : t.wf) :
    parseVTimePrefix (renderVTime t) = some (t, []) := by
  have := parseVTimePrefix_render h []
  simpa using this

theorem dropWhile_renderVTime {t : VTime} (h : t.hh / 10 < 10) :
    (renderVTime t).dropWhile isJsWs = renderVTime t := by
  rw [renderVTime,
    List.dropWhile_cons_of_neg (by simp [(digitChar_facts h).1])]

theorem matchVTTTimestamps_render {t1 t2 : VTime} (h1 : t1.wf)
    (h2 : t2.wf) :
    matchVTTTimestamps (renderTimestampLine t1 t2) = some (t1, t2) := by
  have hd : t2.hh / 10 < 10 := by
    obtain ⟨b1, _, _, _⟩ := h2
    omega
  simp [matchVTTTimestamps, renderTimestampLine, parseVTimePrefix_render h1,
    skipWs1, expectChar, List.dropWhile_cons, isJsWs,
    dropWhile_renderVTime hd, parseVTimePrefix_render_nil h2]

/-! ### `hasInfix` agrees with `List.IsInfix` -/

theorem hasInfix_iff {pat l : List Char} : hasInfix pat l = true ↔ pat <:+: l := by
  induction l with
  | nil => simp [hasInfix, List.isEmpty_iff]
  | cons c cs ih =>
    simp [hasInfix, ih, List.infix_cons_iff, List.isPrefixOf_iff_prefix]

/-! ### A successful timestamp match always contains `-->` -/

theorem expectChar_eq {c : Char} {l r : List Char}
    (h : expectChar c l = some r) : l = c :: r := by
  cases l with
  | nil => simp [expectChar] at h
  | cons x rest =>
    rw [expectChar] at h
    split at h
    · cases h
      subst_vars
      rfl
    · cases h

theorem parse2_suffix {cs r : List Char} {n : Nat}
    (h : parse2 cs = some (n, r)) : r <:+ cs := by
  cases cs with
  | nil => simp [parse2] at h
  | cons c1 cs1 =>
    cases cs1 with
    | nil => simp [parse2] at h
    | cons c2 rest =>
      rw [parse2] at h
      split at h
      · cases h
        exact ⟨[c1, c2], rfl⟩
      · cases h

theorem parse3_suffix {cs r : List Char} {n : Nat}
    (h : parse3 cs = some (n, r)) : r <:+ cs := by
  cases cs with
  | nil => simp [parse3] at h
  | cons c1 cs1 =>
    cases cs1 with
    | nil => simp [parse3] at h
    | cons c2 cs2 =>
      cases cs2 with
      | nil => simp [parse3] at h
      | cons c3 rest =>
        rw [parse3] at h
        split at h
        · cases h
          exact ⟨[c1, c2, c3], rfl⟩
        · cases h

theorem skipWs1_suffix {l r : List Char} (h : skipWs1 l = some r) : r <:+ l := by
  cases l with
  | nil => simp [skipWs1] at h
  | cons c rest =>
    rw [skipWs1] at h
    split at h
    · cases h
      exact (List.dropWhile_suffix _).trans (List.suffix_cons c rest)
    · cases h

theorem parseVTimePrefix_suffix {cs r : List Char} {t : VTime}
    (h : parseVTimePrefix cs = some (t, r)) : r <:+ cs := by
  simp only [parseVTimePrefix, Option.bind_eq_bind, Option.bind_eq_some] at h
  obtain ⟨a1, hp1, h⟩ := h
  obtain ⟨r2, he1, h⟩ := h
  obtain ⟨a2, hp2, h⟩ := h
  obtain ⟨r4, he2, h⟩ := h
  obtain ⟨a3, hp3, h⟩ := h
  obtain ⟨r6, he3, h⟩ := h
  obtain ⟨a4, hp4, h⟩ := h
  cases h
  calc a4.2 <:+ r6 := parse3_suffix (by rw [← hp4])
    _ <:+ a3.2 := by rw [expectChar_eq he3]; exact List.suffix_cons _ _
    _ <:+ r4 := parse2_suffix (by rw [← hp3])
    _ <:+ a2.2 := by rw [expectChar_eq he2]; exact List.suffix_cons _ _
    _ <:+ r2 := parse2_suffix (by rw [← hp2])
    _ <:+ a1.2 := by rw [expectChar_eq he1]; exact List.suffix_cons _ _
    _ <:+ cs := parse2_suffix (by rw [← hp1])

theorem matchVTT_arrow {cs : List Char} {x : VTime × VTime}
    (h : matchVTTTimestamps cs = some x) :
    hasInfix "-->".data cs = true := by
  simp only [matchVTTTimestamps, Option.bind_eq_bind, Option.bind_eq_some] at h
  obtain ⟨a1, hp1, h⟩ := h
  obtain ⟨r2, hw1, h⟩ := h
  obtain ⟨r3, he1, h⟩ := h
  obtain ⟨r4, he2, h⟩ := h
  obtain ⟨r5, he3, h⟩ := h
  have hr2 : r2 = '-' :: '-' :: '>' :: r5 := by
    rw [expectChar_eq he1, expectChar_eq he2, expectChar_eq he3]
  have hsuf : r2 <:+ cs := (skipWs1_suffix hw1).trans (parseVTimePrefix_suffix hp1)
  obtain ⟨u, hu⟩ := hsuf
  rw [hasInfix_iff]
  exact ⟨u, r5, by rw [← hu, hr2]; simp⟩

/-! ### Trim and header checks on rendered timestamp lines -/

theorem jsTrim_eq_self {l : List Char}
    (h1 : ∀ c, l.head? = some c → isJsWs c = false)
    (h2 : ∀ c, l.getLast? = some c → isJsWs c = false) : jsTrim l = l := by
  have hd : l.dropWhile isJsWs = l := by
    cases l with
    | nil => rfl
    | cons a t => exact List.dropWhile_cons_of_neg (by simp [h1 a rfl])
  have hrev : l.reverse.dropWhile isJsWs = l.reverse := by
    cases hr : l.reverse with
    | nil => rfl
    | cons b t =>
      have hb : l.getLast? = some b := by
        rw [← List.head?_reverse, hr]
        rfl
      rw [← hr]
      rw [hr, List.dropWhile_cons_of_neg (by simp [h2 b hb])]
  rw [jsTrim, hd, hrev, List.reverse_reverse]

theorem renderTimestampLine_head (t1 t2 : VTime) :
    (renderTimestampLine t1 t2).head? = some (Nat.digitChar (t1.hh / 10)) := rfl

theorem renderTimestampLine_getLast (t1 t2 : VTime) :
    (renderTimestampLine t1 t2).getLast? = some (Nat.digitChar (t2.ms % 10)) := rfl

theorem jsTrim_renderTimestampLine {t1 t2 : VTime} (h1 : t1.hh / 10 < 10)
    (h2 : t2.ms % 10 < 10) :
    jsTrim (renderTimestampLine t1 t2) = renderTimestampLine t1 t2 := by
  apply jsTrim_eq_self
  · intro c hc
    rw [renderTimestampLine_head] at hc
    cases hc
    exact (digitChar_facts h1).1
  · intro c hc
    rw [renderTimestampLine_getLast] at hc
    cases hc
    exact (digitChar_facts h2).1

theorem renderTimestampLine_not_header {t1 t2 : VTime} (h1 : t1.hh / 10 < 10) :
    jsStartsWith (renderTimestampLine t1 t2) "WEBVTT".data = false ∧
      jsStartsWith (renderTimestampLine t1 t2) "NOTE".data = false := by
  obtain ⟨-, -, hW, hN⟩ := digitChar_facts h1
  refine ⟨?_, ?_⟩ <;>
    simp [jsStartsWith, renderTimestampLine, renderVTime, List.isPrefixOf, hW, hN]

/-! ### The step function on the three kinds of rendered lines -/

theorem vttStep_nil (st : Option RawSeg × List RawSeg) : vttStep st [] = st := rfl

theorem vttStep_header (st : Option RawSeg × List RawSeg) :
    vttStep st "WEBVTT".data = st := rfl

theorem vttStep_timestampLine (st : Option RawSeg × List RawSeg)
    {t1 t2 : VTime} (h1 : t1.wf) (h2 : t2.wf) :
    vttStep st (renderTimestampLine t1 t2)
      = (some { text := ""
                offset := .val (parseTimestamp t1 * 1000)
                duration := .val ((parseTimestamp t2 - parseTimestamp t1) * 1000) },
         vttFlush st) := by
  have hh1 : t1.hh / 10 < 10 := by
    obtain ⟨a, -, -, -⟩ := h1
    omega
  have hms2 : t2.ms % 10 < 10 := by omega
  have htrim := jsTrim_renderTimestampLine hh1 hms2
  have hne : (renderTimestampLine t1 t2).isEmpty = false := rfl
  obtain ⟨hW, hN⟩ := @renderTimestampLine_not_header t1 t2 hh1
  simp [vttStep, htrim, hne, hW, hN, matchVTTTimestamps_render h1 h2]

theorem cleanVTTText_nil : cleanVTTText [] = [] := rfl

theorem vttAppendText_nil (t : String) : vttAppendText t [] = t := rfl

theorem vttStep_textLine (cur : RawSeg) (segs : List RawSeg) {l : List Char}
    (hok : cueLineOk l) :
    vttStep (some cur, segs) l
      = (some { cur with text := vttAppendText cur.text (jsTrim l) }, segs) := by
  obtain ⟨hnl, harrow, hW, hN⟩ := hok
  by_cases hemp : jsTrim l = []
  · rw [hemp, vttAppendText_nil]
    simp [vttStep, hemp]
  · have hmatch : matchVTTTimestamps (jsTrim l) = none := by
      cases hm : matchVTTTimestamps (jsTrim l) with
      | none => rfl
      | some x => exact absurd (matchVTT_arrow hm) (by simp [harrow])
    simp [vttStep, hmatch, harrow, hW, hN, List.isEmpty_iff, hemp]

theorem foldl_vttStep_textLines (segs : List RawSeg) :
    ∀ (lines : List (List Char)) (cur : RawSeg),
      (∀ l ∈ lines, cueLineOk l) →
      lines.foldl vttStep (some cur, segs)
        = (some { cur with
            text := lines.foldl (fun t l => vttAppendText t (jsTrim l)) cur.text },
           segs) := by
  intro lines
  induction lines with
  | nil => intro cur _; simp
  | cons l rest ih =>
    intro cur hok
    rw [List.foldl_cons, vttStep_textLine cur segs (hok l (by simp)),
      ih _ (fun x hx => hok x (by simp [hx])), List.foldl_cons]

/-! ### Claim C7: cue documents parse to exactly the expected segments -/

theorem foldl_vttStep_cues :
    ∀ (cues : List SpecCue) (st : Option RawSeg × List RawSeg),
      (∀ c ∈ cues, c.wf) →
      vttFlush (((cues.map renderCueLines).flatten).foldl vttStep st)
        = vttFlush st ++ cues.filterMap specCueSegment := by
  intro cues
  induction cues with
  | nil => intro st _; simp
  | cons c rest ih =>
    intro st hwf
    obtain ⟨hw1, hw2, hlines⟩ := hwf c (by simp)
    simp only [List.map_cons, List.flatten_cons]
    rw [List.foldl_append,
      show renderCueLines c
        = renderTimestampLine c.startT c.endT :: (c.textLines ++ [[]]) from rfl,
      List.foldl_cons, vttStep_timestampLine st hw1 hw2, List.foldl_append,
      foldl_vttStep_textLines _ c.textLines _ hlines]
    simp only [List.foldl_cons, List.foldl_nil, vttStep_nil]
    rw [ih _ (fun x hx => hwf x (by simp [hx]))]
    by_cases htext : specCueText c = ""
    · have htext2 : c.textLines.foldl
          (fun t l => vttAppendText t (jsTrim l)) "" = "" := htext
      simp [vttFlush, htext2, List.filterMap_cons, specCueSegment, htext]
    · have htext2 : ¬ c.textLines.foldl
          (fun t l => vttAppendText t (jsTrim l)) "" = "" := htext
      simp only [vttFlush, List.filterMap_cons, specCueSegment, if_neg htext,
        if_pos htext2]
      simp [specCueText, List.append_assoc]

theorem data_asString (l : List Char) : (l.asString).data = l := rfl

theorem mem_renderVTime {c : Char} {t : VTime} (h : t.wf)
    (hmem : c ∈ renderVTime t) : c.isDigit = true ∨ c = ':' ∨ c = '.' := by
  obtain ⟨h1, h2, h3, h4⟩ := h
  simp only [renderVTime, List.mem_cons, List.not_mem_nil, or_false] at hmem
  rcases hmem with rfl|rfl|rfl|rfl|rfl|rfl|rfl|rfl|rfl|rfl|rfl|rfl <;>
    first
      | exact Or.inl (digitChar_isDigit (by omega))
      | exact Or.inr (Or.inl rfl)
      | exact Or.inr (Or.inr rfl)

theorem nl_not_mem_renderTimestampLine {t1 t2 : VTime} (h1 : t1.wf)
    (h2 : t2.wf) : '\n' ∉ renderTimestampLine t1 t2 := by
  intro hmem
  simp only [renderTimestampLine, List.mem_append, List.mem_cons] at hmem
  rcases hmem with hm | h | h | h | h | h | hm
  · rcases mem_renderVTime h1 hm with h | h | h <;> exact absurd h (by decide)
  · exact absurd h (by decide)
  · exact absurd h (by decide)
  · exact absurd h (by decide)
  · exact absurd h (by decide)
  · exact absurd h (by decide)
  · rcases mem_renderVTime h2 hm with h | h | h <;> exact absurd h (by decide)

/-- Claim C7, main theorem.  Every structured WebVTT cue document —
cues with two-digit-hour `HH:MM:SS.mmm --> HH:MM:SS.mmm` timestamp
lines and ordinary caption text lines — parses to exactly one segment
per cue that accumulated nonempty text: `offsetMillis` is the start
time in milliseconds, `durationMillis` the end-minus-start difference
in milliseconds, the text is tag-stripped, entity-decoded and joined
by single spaces, a cue with no accumulated text is never pushed, and
the last open cue is flushed at end of input. -/
theorem parseVTTContent_cue_doc (cues : List SpecCue)
    (h : ∀ c ∈ cues, c.wf) :
    parseVTTContent (renderVTTDoc cues) = cues.filterMap specCueSegment := by
  have hnl : ∀ l ∈ "WEBVTT".data :: (cues.map renderCueLines).flatten,
      '\n' ∉ l := by
    intro l hl
    rcases List.mem_cons.mp hl with rfl | hl
    · decide
    · simp only [List.mem_flatten, List.mem_map] at hl
      obtain ⟨lines, ⟨cue, hcue, rfl⟩, hlm⟩ := hl
      obtain ⟨hw1, hw2, hlines⟩ := h cue hcue
      rcases List.mem_cons.mp hlm with rfl | hlm
      · exact nl_not_mem_renderTimestampLine hw1 hw2
      · rcases List.mem_append.mp hlm with hlm | hlm
        · exact (hlines l hlm).1
        · simp only [List.mem_singleton] at hlm
          subst hlm
          simp
  rw [parseVTTContent, renderVTTDoc, data_asString,
    splitNl_joinNl (by simp) hnl, parseVTTLines, List.foldl_cons,
    vttStep_header, foldl_vttStep_cues cues (none, []) h]
  rfl

/-- Witness for C7: a two-cue document with inline tags and an HTML
entity parses to exactly two segments with millisecond offsets and
durations and cleaned text. -/
theorem parseVTTContent_cue_doc_witness :
    parseVTTContent (renderVTTDoc
        [⟨⟨0, 0, 1, 0⟩, ⟨0, 0, 3, 500⟩, ["<i>Hello</i> &amp; welcome".data]⟩,
         ⟨⟨0, 0, 3, 500⟩, ⟨0, 0, 6, 0⟩,
           ["<b>second</b> line".data, "more".data]⟩])
      = [{ text := "Hello & welcome", offset := .val 1000,
           duration := .val 2500 },
         { text := "second line more", offset := .val 3500,
           duration := .val 2500 }] := by
  have ht1 : specCueText ⟨⟨0, 0, 1, 0⟩, ⟨0, 0, 3, 500⟩,
      ["<i>Hello</i> &amp; welcome".data]⟩ = "Hello & welcome" := by decide
  have ht2 : specCueText ⟨⟨0, 0, 3, 500⟩, ⟨0, 0, 6, 0⟩,
      ["<b>second</b> line".data, "more".data]⟩ = "second line more" := by
    decide
  have hq1 : parseTimestamp ⟨0, 0, 1, 0⟩ * 1000 = 1000 := by
    norm_num [parseTimestamp]
  have hq2 : (parseTimestamp ⟨0, 0, 3, 500⟩ - parseTimestamp ⟨0, 0, 1, 0⟩)
      * 1000 = 2500 := by
    norm_num [parseTimestamp]
  have hq3 : parseTimestamp ⟨0, 0, 3, 500⟩ * 1000 = 3500 := by
    norm_num [parseTimestamp]
  have hq4 : (parseTimestamp ⟨0, 0, 6, 0⟩ - parseTimestamp ⟨0, 0, 3, 500⟩)
      * 1000 = 2500 := by
    norm_num [parseTimestamp]
  rw [parseVTTContent_cue_doc _ (by decide)]
  simp [List.filterMap_cons, specCueSegment, ht1, ht2, hq1, hq2, hq3, hq4]

/-! ### Claim C10: hour-less cue lines are not recognised -/

/-- A `MM:SS.mmm` time rendering (the hour-less WebVTT form). -/
def renderHourlessTime (m s ms : Nat) : List Char :=
  [Nat.digitChar (m / 10), Nat.digitChar (m % 10), ':',
   Nat.digitChar (s / 10), Nat.digitChar (s % 10), '.',
   Nat.digitChar (ms / 100), Nat.digitChar (ms / 10 % 10),
   Nat.digitChar (ms % 10)]

/-- A structured cue in the hour-less form `MM:SS.mmm --> MM:SS.mmm`. -/
structure HourlessCue where
  m1 : Nat
  s1 : Nat
  ms1 : Nat
  m2 : Nat
  s2 : Nat
  ms2 : Nat
  textLines : List (List Char)

def renderHourlessLine (c : HourlessCue) : List Char :=
  renderHourlessTime c.m1 c.s1 c.ms1
    ++ ' ' :: '-' :: '-' :: '>' :: ' '
    :: renderHourlessTime c.m2 c.s2 c.ms2

def HourlessCue.wf (c : HourlessCue) : Prop :=
  c.m1 < 100 ∧ c.s1 < 100 ∧ c.ms1 < 1000 ∧ c.m2 < 100 ∧ c.s2 < 100 ∧
    c.ms2 < 1000 ∧ ∀ l ∈ c.textLines, cueLineOk l

instance (c : HourlessCue) : Decidable c.wf := by
  unfold HourlessCue.wf
  infer_instance

def renderHourlessCueLines (c : HourlessCue) : List (List Char) :=
  renderHourlessLine c :: c.textLines ++ [[]]

def renderHourlessDoc (cues : List HourlessCue) : String :=
  (joinNl ("WEBVTT".data :: (cues.map renderHourlessCueLines).flatten)).asString

theorem renderHourlessLine_head (c : HourlessCue) :
    (renderHourlessLine c).head? = some (Nat.digitChar (c.m1 / 10)) := rfl

theorem renderHourlessLine_getLast (c : HourlessCue) :
    (renderHourlessLine c).getLast? = some (Nat.digitChar (c.ms2 % 10)) := rfl

theorem jsTrim_renderHourlessLine {c : HourlessCue} (h1 : c.m1 / 10 < 10)
    (h2 : c.ms2 % 10 < 10) :
    jsTrim (renderHourlessLine c) = renderHourlessLine c := by
  apply jsTrim_eq_self
  · intro x hx
    rw [renderHourlessLine_head] at hx
    cases hx
    exact (digitChar_facts h1).1
  · intro x hx
    rw [renderHourlessLine_getLast] at hx
    cases hx
    exact (digitChar_facts h2).1

theorem matchVTT_hourlessLine {c : HourlessCue} (hm1 : c.m1 < 100)
    (hs1 : c.s1 < 100) :
    matchVTTTimestamps (renderHourlessLine c) = none := by
  simp only [renderHourlessLine, renderHourlessTime, List.cons_append]
  simp [matchVTTTimestamps, parseVTimePrefix, parse2_render hm1,
    parse2_render hs1, expectChar]

theorem hasInfix_arrow_hourless (c : HourlessCue) :
    hasInfix "-->".data (renderHourlessLine c) = true := by
  rw [hasInfix_iff]
  refine ⟨renderHourlessTime c.m1 c.s1 c.ms1 ++ [' '],
    ' ' :: renderHourlessTime c.m2 c.s2 c.ms2, ?_⟩
  simp [renderHourlessLine]

theorem vttStep_hourlessLine {c : HourlessCue} (h : c.wf)
    (st : Option RawSeg × List RawSeg) :
    vttStep st (renderHourlessLine c) = st := by
  obtain ⟨h1, h2, h3, h4, h5, h6, -⟩ := h
  have htrim := @jsTrim_renderHourlessLine c (by omega) (by omega)
  have hmatch := @matchVTT_hourlessLine c h1 h2
  have harrow := hasInfix_arrow_hourless c
  obtain ⟨cur, segs⟩ := st
  cases cur <;> simp [vttStep, htrim, hmatch, harrow]

theorem vttStep_none_no_match {segs : List RawSeg} {l : List Char}
    (hm : matchVTTTimestamps (jsTrim l) = none) :
    vttStep (none, segs) l = (none, segs) := by
  by_cases hc : ((jsTrim l).isEmpty || jsStartsWith (jsTrim l) "WEBVTT".data
      || jsStartsWith (jsTrim l) "NOTE".data) = true
  · simp [vttStep, hc]
  · simp [vttStep, hc, hm]

theorem parseVTTLines_no_match {lines : List (List Char)}
    (h : ∀ l ∈ lines, matchVTTTimestamps (jsTrim l) = none) :
    parseVTTLines lines = [] := by
  have hfold : lines.foldl vttStep (none, []) = (none, []) := by
    induction lines with
    | nil => rfl
    | cons l rest ih =>
      rw [List.foldl_cons, vttStep_none_no_match (h l (by simp))]
      exact ih (fun x hx => h x (by simp [hx]))
  rw [parseVTTLines, hfold]
  rfl

/-- Claim C10, main theorem.  The WebVTT parser only recognises
timestamp lines with a two-digit hour field: an hour-less
`MM:SS.mmm --> MM:SS.mmm` line (i) fails the timestamp match, (ii)
leaves the parser state completely unchanged — it is neither a cue
start nor caption text, being excluded from the text branch by the
`-->` guard — and (iii) a document consisting only of such cues parses
to zero segments. -/
theorem hourless_cues_not_recognised :
    (∀ c : HourlessCue, c.wf →
      matchVTTTimestamps (jsTrim (renderHourlessLine c)) = none) ∧
    (∀ c : HourlessCue, c.wf → ∀ st, vttStep st (renderHourlessLine c) = st) ∧
    (∀ cues : List HourlessCue, (∀ c ∈ cues, c.wf) →
      parseVTTContent (renderHourlessDoc cues) = []) := by
  refine ⟨?_, ?_, ?_⟩
  · intro c hc
    obtain ⟨h1, h2, h3, h4, h5, h6, -⟩ := hc
    rw [jsTrim_renderHourlessLine (by omega) (by omega)]
    exact matchVTT_hourlessLine h1 h2
  · intro c hc st
    exact vttStep_hourlessLine hc st
  · intro cues h
    have hnotime : ∀ c : Char, c.isDigit = true ∨ c = ':' ∨ c = '.' →
        c ≠ '\n' := by
      intro c hc
      rcases hc with hd | rfl | rfl
      · intro heq
        rw [heq] at hd
        exact absurd hd (by decide)
      · decide
      · decide
    have hnlTime : ∀ c : HourlessCue, c.wf → '\n' ∉ renderHourlessLine c := by
      intro c hc hmem
      obtain ⟨h1, h2, h3, h4, h5, h6, -⟩ := hc
      simp only [renderHourlessLine, renderHourlessTime, List.cons_append,
        List.mem_cons, List.mem_append, List.nil_append,
        List.not_mem_nil, or_false] at hmem
      rcases hmem with h|h|h|h|h|h|h|h|h|h|h|h|h|h|h|h|h|h|h|h|h|h|h <;>
        first
          | exact absurd h.symm (hnotime _ (Or.inl (digitChar_isDigit (by omega))))
          | exact absurd h (by decide)
    have hnl : ∀ l ∈ "WEBVTT".data :: (cues.map renderHourlessCueLines).flatten,
        '\n' ∉ l := by
      intro l hl
      rcases List.mem_cons.mp hl with rfl | hl
      · decide
      · simp only [List.mem_flatten, List.mem_map] at hl
        obtain ⟨lines, ⟨cue, hcue, rfl⟩, hlm⟩ := hl
        rcases List.mem_cons.mp hlm with rfl | hlm
        · exact hnlTime cue (h cue hcue)
        · rcases List.mem_append.mp hlm with hlm | hlm
          · exact ((h cue hcue).2.2.2.2.2.2 l hlm).1
          · simp only [List.mem_singleton] at hlm
            subst hlm
            simp
    rw [parseVTTContent, renderHourlessDoc, data_asString,
      splitNl_joinNl (by simp) hnl]
    apply parseVTTLines_no_match
    intro l hl
    rcases List.mem_cons.mp hl with rfl | hl
    · decide
    · simp only [List.mem_flatten, List.mem_map] at hl
      obtain ⟨lines, ⟨cue, hcue, rfl⟩, hlm⟩ := hl
      obtain ⟨h1, h2, h3, h4, h5, h6, hlines⟩ := h cue hcue
      rcases List.mem_cons.mp hlm with rfl | hlm
      · rw [jsTrim_renderHourlessLine (by omega) (by omega)]
        exact matchVTT_hourlessLine h1 h2
      · rcases List.mem_append.mp hlm with hlm | hlm
        · cases hm : matchVTTTimestamps (jsTrim l) with
          | none => rfl
          | some x =>
            exact absurd (matchVTT_arrow hm) (by simp [(hlines l hlm).2.1])
        · simp only [List.mem_singleton] at hlm
          subst hlm
          decide

/-- Witness for C10: a concrete document of two hour-less cues parses
to zero segments. -/
theorem hourless_cues_witness :
    parseVTTContent (renderHourlessDoc
        [⟨1, 2, 500, 1, 5, 0, ["Hello hourless".data]⟩,
         ⟨1, 5, 0, 1, 9, 250, ["second cue".data]⟩]) = [] :=
  hourless_cues_not_recognised.2.2 _ (by decide)

/-! ## The timed-text XML parser (`src/unnamed/part_001` lines 164–196)

```
function parseXMLCaptions(xmlContent: string): any[] {
  const segments: any[] = [];
  const textRegex = /<text start="([^"]+)" dur="([^"]+)"[^>]*>([^<]*)<\/text>/g;
  let match;
  while ((match = textRegex.exec(xmlContent)) !== null) {
    const start = parseFloat(match[1]);
    const duration = parseFloat(match[2]);
    const text = match[3].replace(/&amp;/g, '&').replace(/&lt;/g, '<')
      .replace(/&gt;/g, '>').replace(/&#39;/g, "'").replace(/&quot;/g, '"').trim();
    if (text) {
      segments.push({ text, offset: start * 1000, duration: duration * 1000 });
    }
  }
  return segments;
}
```
-/

/-- Consume an expected literal character sequence. -/
def expectChars : List Char → List Char → Option (List Char)
  | [], cs => some cs
  | _ :: _, [] => none
  | p :: ps, c :: cs => if c = p then expectChars ps cs else none

/-- Take characters up to the first occurrence of `stop` (the matched
run of `[^stop]*`); fails when `stop` never occurs.  Returns the run
and the rest, which begins with `stop`. -/
def takeUntil (stop : Char) : List Char → Option (List Char × List Char)
  | [] => none
  | c :: cs =>
    if c = stop then some ([], c :: cs)
    else
      match takeUntil stop cs with
      | some (run, rest) => some (c :: run, rest)
      | none => none

/-- One attempted match of
`<text start="([^"]+)" dur="([^"]+)"[^>]*>([^<]*)<\/text>` at the head
of the input; on success returns the three captures and the remainder
after the match.  The negated character classes make the regex
deterministic, so this direct scan is its exact semantics. -/
def xmlMatchAt (cs : List Char) :
    Option ((String × String × String) × List Char) :=
  match expectChars "<text start=\"".data cs with
  | none => none
  | some r1 =>
    match takeUntil '"' r1 with
    | none => none
    | some (s, r2) =>
      if s = [] then none
      else
        match expectChars "\" dur=\"".data r2 with
        | none => none
        | some r3 =>
          match takeUntil '"' r3 with
          | none => none
          | some (d, r4) =>
            if d = [] then none
            else
              match expectChars ['"'] r4 with
              | none => none
              | some r5 =>
                match takeUntil '>' r5 with
                | none => none
                | some (_, r6) =>
                  match expectChars ['>'] r6 with
                  | none => none
                  | some r7 =>
                    match takeUntil '<' r7 with
                    | none => none
                    | some (t, r8) =>
                      match expectChars "</text>".data r8 with
                      | none => none
                      | some r9 =>
                        some ((s.asString, d.asString, t.asString), r9)

/-- All matches of the timed-text regex, scanning left to right and
resuming after each match (the `exec`-loop semantics).  Fuel-indexed
for structural recursion; the wrapper passes the input length, which
bounds the number of scan steps since every step consumes at least one
character. -/
def xmlScanF : Nat → List Char → List (String × String × String)
  | _, [] => []
  | 0, _ => []
  | fuel + 1, c :: cs =>
    match xmlMatchAt (c :: cs) with
    | some (m, rest) => m :: xmlScanF fuel rest
    | none => xmlScanF fuel cs

def xmlScan (cs : List Char) : List (String × String × String) :=
  xmlScanF cs.length cs

/-- The five-entity unescape of the XML parser, in source order:
`&amp;`, `&lt;`, `&gt;`, `&#39;`, `&quot;`. -/
def unescapeXML (cs : List Char) : List Char :=
  replaceAll '&' "quot;".data [Char.ofNat 34]
    (replaceAll '&' "#39;".data [Char.ofNat 39]
      (replaceAll '&' "gt;".data ">".data
        (replaceAll '&' "lt;".data "<".data
          (replaceAll '&' "amp;".data "&".data cs))))

/-- `parseXMLCaptions` from `src/unnamed/part_001` lines 164–196 as the
source's `while exec` loop: for each match, convert the captures with
the platform `parseFloat` (the oracle `pf`, returning `JNum.nan` on
unparseable input), unescape the five entities, trim, and push a
segment when the text is nonempty.  Fuel-indexed like `xmlScanF`. -/
def parseXMLCaptionsF (pf : String → JNum) : Nat → List Char → List RawSeg
  | _, [] => []
  | 0, _ => []
  | fuel + 1, c :: cs =>
    match xmlMatchAt (c :: cs) with
    | some ((s, d, t), rest) =>
      (if (jsTrim (unescapeXML t.data)).asString ≠ "" then
        [{ text := (jsTrim (unescapeXML t.data)).asString
           offset := pf s * 1000
           duration := pf d * 1000 }]
       else []) ++ parseXMLCaptionsF pf fuel rest
    | none => parseXMLCaptionsF pf fuel cs

def parseXMLCaptions (pf : String → JNum) (xmlContent : String) : List RawSeg :=
  parseXMLCaptionsF pf xmlContent.data.length xmlContent.data

/-- The spec's description of the XML parser: one segment per regex
match, with `offsetMillis = S·1000` and `durationMillis = D·1000`
(`S`, `D` read as fractional seconds by `parseFloat`), the five HTML
entities unescaped in the text, and every segment whose text is empty
after unescaping discarded. -/
def xmlCaptionsSpec (pf : String → JNum) (xmlContent : String) : List RawSeg :=
  (xmlScan xmlContent.data).filterMap (fun m =>
    if (jsTrim (unescapeXML m.2.2.data)).asString = "" then none
    else some { text := (jsTrim (unescapeXML m.2.2.data)).asString
                offset := pf m.1 * 1000
                duration := pf m.2.1 * 1000 })

/-- Claim C8, main theorem.  `parseXMLCaptions` produces exactly one
segment per regex match of `<text start="S" dur="D" ...>TEXT</text>`,
with offset `S·1000` and duration `D·1000` milliseconds, the five
entities unescaped, and empty-text segments discarded — the imperative
`exec` loop agrees with the declarative match-list description for
every input and every `parseFloat` behaviour. -/
theorem parseXMLCaptions_eq_spec (pf : String → JNum) (xmlContent : String) :
    parseXMLCaptions pf xmlContent = xmlCaptionsSpec pf xmlContent := by
  suffices h : ∀ (fuel : Nat) (cs : List Char),
      parseXMLCaptionsF pf fuel cs
        = (xmlScanF fuel cs).filterMap (fun m =>
            if (jsTrim (unescapeXML m.2.2.data)).asString = "" then none
            else some { text := (jsTrim (unescapeXML m.2.2.data)).asString
                        offset := pf m.1 * 1000
                        duration := pf m.2.1 * 1000 }) by
    exact h _ _
  intro fuel
  induction fuel with
  | zero => intro cs; cases cs <;> rfl
  | succ n ih =>
    intro cs
    cases cs with
    | nil => rfl
    | cons c cs =>
      cases hm : xmlMatchAt (c :: cs) with
      | none =>
        simp only [parseXMLCaptionsF, xmlScanF, hm]
        exact ih cs
      | some m =>
        obtain ⟨⟨s, d, t⟩, rest⟩ := m
        simp only [parseXMLCaptionsF, xmlScanF, hm, List.filterMap_cons]
        by_cases ht : (jsTrim (unescapeXML t.data)).asString = ""
        · simp [ht, ih rest]
        · simp [ht, ih rest]

/-! ## Video-id extraction (`src/server/routes.ts` lines 66–89;
identical in all route-file variants)

```
const urlObj = new URL(url);
if (urlObj.hostname.includes('youtube.com') || urlObj.hostname.includes('www.youtube.com')) {
  videoId = urlObj.searchParams.get('v') || '';
} else if (urlObj.hostname.includes('youtu.be')) {
  videoId = urlObj.pathname.slice(1);
} else { throw new Error('Invalid YouTube URL format'); }
if (!videoId) { throw new Error('Could not extract video ID from URL'); }
```
with every throw answered by `res.status(400)`.
-/

/-- The parts of a parsed `URL` object the extraction reads. -/
structure JsUrl where
  hostname : String
  pathname : String
  searchV : Option String
deriving DecidableEq, Repr

/-- `pathname.slice(1)`. -/
def jsSlice1 (s : String) : String := (s.data.drop 1).asString

/-- The videoId-extraction stage of the `/api/transcript` handler.
`parsed` is the result of `new URL(url)` (`none` when the constructor
throws); the result is the extracted id, or the 400 status every throw
in this block is answered with. -/
def extractVideoId (parsed : Option JsUrl) : Except Nat String :=
  match parsed with
  | none => .error 400
  | some u =>
    if jsIncludes u.hostname "youtube.com"
        || jsIncludes u.hostname "www.youtube.com" then
      let videoId := u.searchV.getD ""
      if videoId = "" then .error 400 else .ok videoId
    else if jsIncludes u.hostname "youtu.be" then
      let videoId := jsSlice1 u.pathname
      if videoId = "" then .error 400 else .ok videoId
    else .error 400

theorem jsIncludes_trans {a s t : String} (hst : jsIncludes s t = true)
    (has : jsIncludes a s = true) : jsIncludes a t = true := by
  rw [jsIncludes, hasInfix_iff] at *
  exact hst.trans has

/-- Claim C4, main theorem.  Watch-page URLs (host containing the
watch-page domain, as the source's `includes` check reads it) with a
nonempty `v` parameter yield exactly that value; short-link URLs (host
`youtu.be`) yield `pathname.slice(1)`; an unparseable URL, a host
matching neither domain pattern, or an empty identifier yield the 400
response; and nothing outside the two domain patterns is ever
accepted. -/
theorem videoId_extraction_correct :
    (∀ (u : JsUrl) (v : String), jsIncludes u.hostname "youtube.com" = true →
      u.searchV = some v → v ≠ "" → extractVideoId (some u) = .ok v) ∧
    (∀ (path : String) (q : Option String), jsSlice1 path ≠ "" →
      extractVideoId (some ⟨"youtu.be", path, q⟩) = .ok (jsSlice1 path)) ∧
    extractVideoId none = .error 400 ∧
    (∀ u : JsUrl, jsIncludes u.hostname "youtube.com" = false →
      jsIncludes u.hostname "youtu.be" = false →
      extractVideoId (some u) = .error 400) ∧
    (∀ u : JsUrl, jsIncludes u.hostname "youtube.com" = true →
      u.searchV.getD "" = "" → extractVideoId (some u) = .error 400) ∧
    (∀ (u : JsUrl) (v : String), extractVideoId (some u) = .ok v →
      (jsIncludes u.hostname "youtube.com" = true ∨
        jsIncludes u.hostname "youtu.be" = true) ∧ v ≠ "") := by
  refine ⟨?_, ?_, rfl, ?_, ?_, ?_⟩
  · intro u v hyt hv hne
    simp [extractVideoId, hyt, hv, hne]
  · intro path q hne
    have h1 : jsIncludes "youtu.be" "youtube.com" = false := by decide
    have h2 : jsIncludes "youtu.be" "www.youtube.com" = false := by decide
    have h3 : jsIncludes "youtu.be" "youtu.be" = true := by decide
    simp [extractVideoId, h1, h2, h3, hne]
  · intro u hyt hbe
    have hwww : jsIncludes u.hostname "www.youtube.com" = false := by
      cases hw : jsIncludes u.hostname "www.youtube.com" with
      | false => rfl
      | true =>
        have := jsIncludes_trans (by decide :
          jsIncludes "www.youtube.com" "youtube.com" = true) hw
        rw [this] at hyt
        cases hyt
    simp [extractVideoId, hyt, hwww, hbe]
  · intro u hyt hv
    simp [extractVideoId, hyt, hv]
  · intro u v h
    rw [extractVideoId] at h
    by_cases h1 : (jsIncludes u.hostname "youtube.com"
        || jsIncludes u.hostname "www.youtube.com") = true
    · rw [if_pos h1] at h
      dsimp only at h
      rcases Bool.or_eq_true_iff.mp h1 with hyt | hww
      all_goals {
        split at h
        · cases h
        · cases h
          refine ⟨?_, by assumption⟩
          first
            | exact Or.inl hyt
            | exact Or.inl (jsIncludes_trans (by decide :
                jsIncludes "www.youtube.com" "youtube.com" = true) hww)
      }
    · rw [if_neg h1] at h
      by_cases h2 : jsIncludes u.hostname "youtu.be" = true
      · rw [if_pos h2] at h
        dsimp only at h
        split at h
        · cases h
        · cases h
          exact ⟨Or.inr h2, by assumption⟩
      · rw [if_neg h2] at h
        cases h

/-- Witness for C4: concrete watch-page, short-link and foreign-domain
URLs. -/
theorem videoId_extraction_witness :
    extractVideoId (some ⟨"www.youtube.com", "/watch", some "dQw4w9WgXcQ"⟩)
        = .ok "dQw4w9WgXcQ" ∧
    extractVideoId (some ⟨"youtu.be", "/xyz", none⟩) = .ok "xyz" ∧
    extractVideoId (some ⟨"example.com", "/watch", some "abc"⟩)
        = .error 400 :=
  ⟨videoId_extraction_correct.1 _ "dQw4w9WgXcQ" (by decide) rfl (by decide),
   videoId_extraction_correct.2.1 "/xyz" none (by decide),
   videoId_extraction_correct.2.2.2.1 _ (by decide) (by decide)⟩

/-! ## The summarize map-reduce (`src/server/routes.ts` lines 200–317)

The OpenAI client is a platform service; the two completion-plus-parse
operations are passed in as oracles: `chunkCall` for the per-chunk
summarization (lines 214–249) and `reduceCall` for the combining call
(lines 258–295).  An `Except.error` models a thrown/unparseable
response.
-/

/-- Outcome of the `/api/summarize` handler. -/
inductive SummarizeOutcome where
  | ok : SummaryResponse → SummarizeOutcome
  | configError : SummarizeOutcome
  | chunkFailure : String → SummarizeOutcome
  | internalError : SummarizeOutcome
deriving DecidableEq, Repr

/-- The per-chunk loop (lines 214–249): summarize each chunk in order;
the first failure is rethrown and aborts the whole request. -/
def mapChunks (chunkCall : String → Except String PSummary) :
    List String → Except String (List PSummary)
  | [] => .ok []
  | c :: cs =>
    match chunkCall c with
    | .error e => .error e
    | .ok s =>
      match mapChunks chunkCall cs with
      | .error e => .error e
      | .ok rest => .ok (s :: rest)

/-- The final-summary selection (lines 252–295): with exactly one chunk
summary, use it directly and make no reduce call; otherwise make the
reduce call (counted in the second component), and if it fails or its
output fails to parse, fall back to the first chunk's summary.  `none`
models the uncaught rethrow of `JSON.parse(summaries[0])` when the
summary list is empty and the reduce call failed. -/
def combineSummaries (summaries : List PSummary)
    (reduceCall : Except String PSummary) : Option PSummary × Nat :=
  match summaries with
  | [s] => (some s, 0)
  | [] =>
    match reduceCall with
    | .ok r => (some r, 1)
    | .error _ => (none, 1)
  | s :: _ :: _ =>
    match reduceCall with
    | .ok r => (some r, 1)
    | .error _ => (some s, 1)

/-- The `/api/summarize` handler with the OpenAI calls abstracted:
returns the outcome and the number of reduce calls made. -/
def summarizeHandler (apiKeyPresent : Bool) (transcript : String)
    (chunkCall : String → Except String PSummary)
    (reduceCall : Except String PSummary) : SummarizeOutcome × Nat :=
  if !apiKeyPresent then (.configError, 0)
  else
    match mapChunks chunkCall (chunkText transcript) with
    | .error e => (.chunkFailure e, 0)
    | .ok summaries =>
      match combineSummaries summaries reduceCall with
      | (some fs, n) => (.ok (mkSummaryResponse fs), n)
      | (none, n) => (.internalError, n)

/-- Claim C5, main theorem.  The FinalSummary selection rule: with
exactly one chunk summary, FinalSummary is that chunk's PartialSummary
and no reduce call is made; with more than one chunk summary and a
failing reduce call, FinalSummary is the first chunk's PartialSummary
and no error is propagated (the handler still answers 200 with the
rendered summary); and at handler level, a transcript that chunks to a
single chunk is answered from that chunk's summary alone with zero
reduce calls. -/
theorem finalSummary_selection :
    (∀ (s : PSummary) (r : Except String PSummary),
      combineSummaries [s] r = (some s, 0)) ∧
    (∀ (s₁ s₂ : PSummary) (rest : List PSummary) (e : String),
      combineSummaries (s₁ :: s₂ :: rest) (.error e) = (some s₁, 1)) ∧
    (∀ (t : String) (chunkCall : String → Except String PSummary)
        (reduceCall : Except String PSummary) (c : String) (s : PSummary),
      chunkText t = [c] → chunkCall c = .ok s →
      summarizeHandler true t chunkCall reduceCall
        = (.ok (mkSummaryResponse s), 0)) := by
  refine ⟨fun s r => rfl, fun s₁ s₂ rest e => rfl, ?_⟩
  intro t chunkCall reduceCall c s hchunks hcall
  rw [summarizeHandler]
  simp only [Bool.not_true, Bool.false_eq_true, if_false, hchunks, mapChunks,
    hcall]
  rfl

/-- Witness for C5: the handler-level clause at a concrete short
transcript (one chunk) with a failing reduce oracle. -/
theorem finalSummary_selection_witness :
    summarizeHandler true "hi" (fun _ => .ok ⟨"a tldr", ["p1", "p2"]⟩)
        (.error "boom")
      = (.ok (mkSummaryResponse ⟨"a tldr", ["p1", "p2"]⟩), 0) :=
  finalSummary_selection.2.2 "hi" _ _ "hi" ⟨"a tldr", ["p1", "p2"]⟩
    (by decide) rfl

/-! ## The `/api/transcript` acquisition of `src/unnamed/part_001`
(lines 259–375) and the demonstration mode of `src/unnamed/part_002`
(lines 89–150)

Network fetches are platform services, passed in as oracles:
`fetchTrack url` models `fetch(track.baseUrl)` (`none` = response not
ok).  The stage below starts where `extractCaptionTracks` has produced
`captionTracks` from the scraped watch page.
-/

/-- A caption track extracted from the page
(`languageCode`, `name`, `baseUrl` are all optional in the scraped
JSON). -/
structure CaptionTrack where
  languageCode : Option String
  name : Option String
  baseUrl : Option String
deriving DecidableEq, Repr

/-- Outcome of the `/api/transcript` handler: a 200 response or an
error status. -/
inductive TranscriptOutcome where
  | ok : TranscriptResponse → TranscriptOutcome
  | err : Nat → TranscriptOutcome
deriving DecidableEq, Repr

/-- The hard-coded "comprehensive demo transcript" of
`src/unnamed/part_001` lines 287–311 (the same literal appears at
`src/unnamed/part_002` lines 93–117). -/
def demoTranscriptData : List RawSeg :=
  [⟨"Welcome to this comprehensive video tutorial.", .val 0, .val 3500⟩,
   ⟨"Today we're exploring the fascinating world of artificial intelligence and machine learning.", .val 3500, .val 5000⟩,
   ⟨"AI has revolutionized countless industries, from healthcare to finance to entertainment.", .val 8500, .val 4800⟩,
   ⟨"Machine learning algorithms can analyze vast amounts of data to find patterns and make predictions.", .val 13300, .val 6200⟩,
   ⟨"Deep learning, a subset of machine learning, uses neural networks to process information.", .val 19500, .val 5500⟩,
   ⟨"These neural networks are inspired by how the human brain processes information.", .val 25000, .val 4700⟩,
   ⟨"Natural language processing allows computers to understand and generate human language.", .val 29700, .val 5200⟩,
   ⟨"Computer vision enables machines to interpret and analyze visual information from the world.", .val 34900, .val 5800⟩,
   ⟨"In healthcare, AI assists with medical diagnosis, drug discovery, and treatment planning.", .val 40700, .val 5400⟩,
   ⟨"Financial institutions use AI for fraud detection, risk assessment, and algorithmic trading.", .val 46100, .val 5600⟩,
   ⟨"Autonomous vehicles rely on AI to navigate roads and make split-second driving decisions.", .val 51700, .val 5300⟩,
   ⟨"Recommendation systems use AI to suggest content, products, and services to users.", .val 57000, .val 4900⟩,
   ⟨"The ethical implications of AI development require careful consideration and oversight.", .val 61900, .val 5100⟩,
   ⟨"Bias in AI systems can lead to unfair outcomes and discriminatory practices.", .val 67000, .val 4600⟩,
   ⟨"Transparency and explainability in AI models are crucial for building trust.", .val 71600, .val 4800⟩,
   ⟨"The future of AI holds incredible potential for solving complex global challenges.", .val 76400, .val 5200⟩,
   ⟨"From climate change to poverty, AI could help us find innovative solutions.", .val 81600, .val 4900⟩,
   ⟨"However, we must ensure AI development remains aligned with human values and needs.", .val 86500, .val 5400⟩,
   ⟨"Collaboration between technologists, policymakers, and society is essential.", .val 91900, .val 4700⟩,
   ⟨"Thank you for joining me on this exploration of artificial intelligence and its impact on our world.", .val 96600, .val 6000⟩,
   ⟨"Don't forget to like this video and subscribe for more technology content.", .val 102600, .val 4200⟩,
   ⟨"Leave a comment below about which AI topic interests you most.", .val 106800, .val 4000⟩,
   ⟨"Until next time, keep learning and stay curious about the future of technology.", .val 110800, .val 5000⟩]

/-- `captionTracks.find(track => track.languageCode?.startsWith('en')
|| track.name?.includes('English')) || captionTracks[0]`. -/
def findEnglishTrack (tracks : List CaptionTrack) : Option CaptionTrack :=
  match tracks.find? (fun track =>
      (match track.languageCode with
       | some l => jsStartsWith l.data "en".data
       | none => false)
      || (match track.name with
          | some n => jsIncludes n "English"
          | none => false)) with
  | some t => some t
  | none => tracks.head?

/-- The caption-acquisition stage of `src/unnamed/part_001` lines
283–356, starting from the extracted caption tracks: with no tracks
the handler substitutes the hard-coded demo transcript; otherwise it
selects the English-or-first track, fetches it, parses VTT or XML by
the URL's format hint, and reports 404 when nothing was extracted. -/
def fetchCaptionsPart001 (pf : String → JNum)
    (fetchTrack : String → Option String) (captionTracks : List CaptionTrack) :
    Except Nat (List RawSeg) :=
  if captionTracks.isEmpty then
    -- "Provide sample data for demonstration when real captions aren't available"
    .ok demoTranscriptData
  else
    match findEnglishTrack captionTracks with
    | none => .error 404
    | some englishTrack =>
      match englishTrack.baseUrl with
      | none => .error 404
      | some baseUrl =>
        match fetchTrack baseUrl with
        | none => .error 500
        | some captionContent =>
          let transcriptData :=
            if jsIncludes baseUrl "fmt=vtt" then parseVTTContent captionContent
            else parseXMLCaptions pf captionContent
          if transcriptData.isEmpty then .error 404
          else .ok transcriptData

/-- The `/api/transcript` response of `src/unnamed/part_001` given the
acquisition result: process the segments into items or answer with the
error status. -/
def transcriptRespondPart001 (r : Except Nat (List RawSeg)) :
    TranscriptOutcome :=
  match r with
  | .ok segs => .ok (processItems segs)
  | .error code => .err code

/-- The `/api/transcript` handler of `src/unnamed/part_002` lines
89–150: after videoId extraction succeeds it unconditionally serves the
hard-coded demonstration transcript. -/
def transcriptHandlerPart002 (videoId : String) : TranscriptOutcome :=
  .ok (processItems demoTranscriptData)

/-- Claim C1 evaluated on the code (`code_bug`).  When the acquisition
chain is exhausted with no caption tracks, `src/unnamed/part_001` does
not answer 404: it fabricates a 200 response from the 23 hard-coded
demo segments (first text "Welcome to this comprehensive video
tutorial."), and `src/unnamed/part_002` serves the same fabricated
transcript for every request — contradicting the documented behaviour
that total acquisition failure yields `NotFoundError` and never
synthetic content. -/
theorem transcript_demo_fallback_not_404 :
    (∀ (pf : String → JNum) (fetchTrack : String → Option String),
      fetchCaptionsPart001 pf fetchTrack [] = .ok demoTranscriptData ∧
      transcriptRespondPart001 (fetchCaptionsPart001 pf fetchTrack [])
        = .ok (processItems demoTranscriptData) ∧
      transcriptRespondPart001 (fetchCaptionsPart001 pf fetchTrack [])
        ≠ .err 404) ∧
    (∀ videoId : String,
      transcriptHandlerPart002 videoId = .ok (processItems demoTranscriptData)) ∧
    (processItems demoTranscriptData).items.length = 23 ∧
    ((processItems demoTranscriptData).items.map TranscriptItem.text).head?
      = some "Welcome to this comprehensive video tutorial." := by
  refine ⟨fun pf fetchTrack => ⟨rfl, rfl, by simp [transcriptRespondPart001,
    fetchCaptionsPart001]⟩, fun videoId => rfl, ?_, rfl⟩
  simp [processItems, demoTranscriptData]

end TubeScribe
